import Mathlib

set_option maxRecDepth 16384

/-
Verification of the mk2pvrouter ESPHome component
(src/components/mk2pvrouter/mk2pvrouter.cpp / .h).

The component is a byte-stream frame parser: a state machine accumulates
serial bytes into a fixed buffer between a start marker (0x02) and an end
marker (0x03), then scans the buffer for records of the form
  0x0a | tag | 0x09 | value | 0x09 | crc | 0x0d
verifying a modulo-64 checksum per record and dispatching (tag, value)
pairs to registered listeners.

The embedding below models:
  * bytes as `Nat` (byte values; machine arithmetic is taken mod 256 / mod
    2^32 explicitly where the C code relies on it);
  * the 1048-byte frame buffer as a total function `Nat → Nat` (so that
    reads past the recorded fill length — which the C scan can perform —
    are represented: they return whatever "stale memory" holds);
  * `memchr` as a first-index search that also reports the list of indices
    it examines, so that in/out-of-bounds behaviour of the scan can be
    stated;
  * the fallible extraction and checksum routines as pure functions.
-/

namespace Mk2PVRouter

/-! ## Protocol constants (mk2pvrouter.cpp lines 9-14, mk2pvrouter.h lines 14-16) -/

def START_FRAME : Nat := 0x2
def END_FRAME : Nat := 0x3
def LINE_FEED : Nat := 0xa
def CARRIAGE_RETURN : Nat := 0xd
def TAB : Nat := 0x9
def MAX_ITERATIONS : Nat := 128
def MAX_TAG_SIZE : Nat := 16
def MAX_VAL_SIZE : Nat := 16
def MAX_BUF_SIZE : Nat := 1048

/-- 2^32, the modulus of `uint32_t` arithmetic (`buf_index_` is `uint32_t`). -/
def UINT32_MOD : Nat := 4294967296

/-! ## memchr over a list -/

/-- Index of the first occurrence of byte `c` in the list, if any
(the list-level behaviour of C `memchr`). -/
def memchrList (c : Nat) : List Nat → Option Nat
  | [] => none
  | b :: rest => if b = c then some 0 else (memchrList c rest).map (· + 1)

/-! ## Field extraction (mk2pvrouter.cpp lines 26-40, `get_field`)

`get_field(dest, buf_start, buf_end, max_len)` is modelled on the byte
region `[buf_start, buf_end)` given as a list.  The result is the returned
length together with the new contents of the destination buffer:
`none` means the destination was not written, `some l` means the bytes `l`
(field bytes followed by the NUL terminator) were written. -/

def get_field (region : List Nat) (max_len : Nat) : Nat × Option (List Nat) :=
  match memchrList TAB region with
  | none => (0, none)
  | some len =>
    if max_len ≤ len then (len, none)
    else (len, some (region.take len ++ [0]))

/-! ## Checksum (mk2pvrouter.cpp lines 49-57 `calculate_crc_`, 68-79 `check_crc_`) -/

/-- `calculate_crc_(grp, grp_len)` with `checksum_area_end_ = k`:
sum the first `grp_len - k` bytes in a `uint8_t` accumulator (mod 256),
keep the low 6 bits, add 0x20.  (When `grp_len - k` is negative the C loop
body never runs; `Nat` truncated subtraction gives the same empty range.) -/
def calculate_crc (grp : List Nat) (k : Nat) : Nat :=
  (((grp.take (grp.length - k)).foldl (fun a b => (a + b) % 256) 0) &&& 0x3F) + 0x20

/-- `check_crc_(grp, grp_end)` on the span given as a list: compare the
last byte (`grp[grp_len - 1]`) with the computed checksum. -/
def check_crc (grp : List Nat) (k : Nat) : Bool :=
  grp.getD (grp.length - 1) 0 == calculate_crc grp k

/-! ## The frame buffer -/

/-- The bytes of the buffer at `[start, start + len)`. -/
def bufRange (buf : Nat → Nat) (start len : Nat) : List Nat :=
  (List.range len).map (fun i => buf (start + i))

/-- `buf` holds exactly the bytes `l` starting at index `base`. -/
def agrees (buf : Nat → Nat) (base : Nat) (l : List Nat) : Prop :=
  ∀ i, i < l.length → buf (base + i) = l.getD i 0

instance (buf : Nat → Nat) (base : Nat) (l : List Nat) :
    Decidable (agrees buf base l) := by
  unfold agrees; infer_instance

/-- `memchr(buf + start, c, len)`: index (absolute) of the first occurrence
of `c` in `[start, start + len)`. -/
def memchrFrom (buf : Nat → Nat) (start len c : Nat) : Option Nat :=
  (memchrList c (bufRange buf start len)).map (start + ·)

/-- The (absolute) indices `memchr(buf + start, c, len)` examines: every
index up to and including the first match, or the whole range if there is
no match. -/
def memchrExamined (buf : Nat → Nat) (start len c : Nat) : List Nat :=
  match memchrList c (bufRange buf start len) with
  | some i => (List.range (i + 1)).map (start + ·)
  | none => (List.range len).map (start + ·)

/-- Index of the byte `check_crc_` reads as `raw_crc`, for the record span
`[s, e)`: the C code reads `grp[grp_len - 1]`, i.e. the byte at
`s + (e - s) - 1`.  For an empty span (`e = s`) this is `s - 1`, one byte
before the span. -/
def crcRawIndex (s e : Nat) : Nat := s + (e - s) - 1

/-- `check_crc_(buf + s, buf + e)`: the record span is `[s, e)` inside the
frame buffer.  Reads `buf (crcRawIndex s e)` as the raw checksum byte. -/
def check_crc_at (buf : Nat → Nat) (s e k : Nat) : Bool :=
  buf (crcRawIndex s e) == calculate_crc (bufRange buf s (e - s)) k

/-- The length the scan passes to the line-feed `memchr`: the C expression
`buf_index_ - 1` in `uint32_t` arithmetic (so `0 - 1 = 2^32 - 1`). -/
def lfSearchLen (n : Nat) : Nat := (n + UINT32_MOD - 1) % UINT32_MOD

/-- `std::string(p)` for a `char` array holding the bytes `l`: the bytes up
to the first NUL. -/
def cString (l : List Nat) : List Nat := l.takeWhile (fun b => b ≠ 0)

/-! ## The record-scan loop (mk2pvrouter.cpp lines 152-207,
`Mk2PVRouter::loop`, state `END_FRAME_RECEIVED`) -/

/-- Observable trace of one run of the record-scan loop. -/
structure ParseTrace where
  /-- `(tag, value)` pairs passed to `publish_value_`, in order. -/
  published : List (List Nat × List Nat)
  /-- Record spans `(buf_finger, grp_end)` handed to `check_crc_`, in order. -/
  records : List (Nat × Nat)
  /-- Buffer indices examined by the line-feed searches. -/
  examinedLF : List Nat
  /-- Buffer indices examined by the carriage-return searches. -/
  examinedCR : List Nat
  deriving Repr, DecidableEq

def ParseTrace.empty : ParseTrace := ⟨[], [], [], []⟩

/-- Stage of one `while`-loop iteration of `Mk2PVRouter::loop` (state
`END_FRAME_RECEIVED`) after the record span `[f1, e)` has been delimited:
CRC check, tag extraction, value extraction, publication
(mk2pvrouter.cpp lines 182-204).  `cont f'` continues the scan with
`buf_finger = f'`. -/
def iterFields (buf : Nat → Nat) (n k : Nat) (cont : Nat → ParseTrace)
    (f1 e : Nat) : ParseTrace :=
  if check_crc_at buf f1 e k then
    -- field_len = get_field(tag_, buf_finger, grp_end, MAX_TAG_SIZE)
    let tagR := get_field (bufRange buf f1 (e - f1)) MAX_TAG_SIZE
    if tagR.1 = 0 ∨ MAX_TAG_SIZE ≤ tagR.1 then cont f1  -- "Invalid tag.": continue
    else
      -- buf_finger += field_len + 1
      let f2 := f1 + tagR.1 + 1
      let valR := get_field (bufRange buf f2 (e - f2)) MAX_VAL_SIZE
      if valR.1 = 0 ∨ MAX_VAL_SIZE ≤ valR.1 then cont f2  -- "Invalid value": continue
      else
        -- buf_finger += field_len + 1 + 1 + 1; publish_value_(...)
        let f3 := f2 + valR.1 + 3
        let rest := cont f3
        { rest with published :=
            (cString (tagR.2.getD []), cString (valR.2.getD []))
              :: rest.published }
  else cont f1                                  -- CRC mismatch: continue

/-- Stage after `++buf_finger`: the carriage-return search
`grp_end = memchr(buf_finger, CARRIAGE_RETURN, buf_end - buf_finger)`
(mk2pvrouter.cpp lines 176-180); its absence breaks the loop. -/
def iterCR (buf : Nat → Nat) (n k : Nat) (cont : Nat → ParseTrace)
    (f1 : Nat) : ParseTrace :=
  (memchrFrom buf f1 (n - f1) CARRIAGE_RETURN).elim
    ParseTrace.empty                            -- "No group found": break
    (fun e =>
      { iterFields buf n k cont f1 e with
          records := (f1, e) :: (iterFields buf n k cont f1 e).records })

/-- One full iteration of the `while` loop: the line-feed search
`memchr(buf_finger, LINE_FEED, buf_index_ - 1)` and the loop condition
`(buf_finger - buf_) < buf_index_` (mk2pvrouter.cpp lines 170-171),
then `iterCR`.  The indices examined by both searches are recorded. -/
def iterLF (buf : Nat → Nat) (n k : Nat) (cont : Nat → ParseTrace)
    (finger : Nat) : ParseTrace :=
  (memchrFrom buf finger (lfSearchLen n) LINE_FEED).elim
    { ParseTrace.empty with
        examinedLF := memchrExamined buf finger (lfSearchLen n) LINE_FEED }
    (fun r =>
      if r < n then
        { iterCR buf n k cont (r + 1) with
            examinedLF := memchrExamined buf finger (lfSearchLen n) LINE_FEED
              ++ (iterCR buf n k cont (r + 1)).examinedLF,
            examinedCR := memchrExamined buf (r + 1) (n - (r + 1)) CARRIAGE_RETURN
              ++ (iterCR buf n k cont (r + 1)).examinedCR }
      else { ParseTrace.empty with
          examinedLF := memchrExamined buf finger (lfSearchLen n) LINE_FEED })

/-- The `while` loop of `Mk2PVRouter::loop` in state `END_FRAME_RECEIVED`,
with explicit fuel.  `n` is `buf_index_`, `k` is `checksum_area_end_`,
the second `Nat` argument is the offset of `buf_finger` from `buf_`. -/
def parseAux (buf : Nat → Nat) (n k : Nat) : Nat → Nat → ParseTrace
  | 0, _ => ParseTrace.empty
  | fuel + 1, finger => iterLF buf n k (fun f' => parseAux buf n k fuel f') finger

/-- The complete record scan over the filled buffer (`buf_index_ = n`).
The fuel `n + 1` is enough: every iteration advances `buf_finger` past a
line feed found at an index `< n`, so there are at most `n` iterations
that reach the loop body. -/
def parseFrame (buf : Nat → Nat) (n k : Nat) : ParseTrace :=
  parseAux buf n k (n + 1) 0

/-! ## The router state machine (mk2pvrouter.h lines 38-69, mk2pvrouter.cpp
lines 90-127, 138-250) -/

/-- `Mk2PVRouter::State` (mk2pvrouter.h lines 56-61). -/
inductive State where
  | OFF
  | ON
  | START_FRAME_RECEIVED
  | END_FRAME_RECEIVED
  deriving Repr, DecidableEq

/-- The mutable fields of `Mk2PVRouter` relevant to frame processing:
the fixed buffer `buf_` (as a total function over indices), the fill index
`buf_index_`, the state `state_`, and the configured `checksum_area_end_`. -/
structure Router where
  buf : Nat → Nat
  buf_index : Nat
  state : State
  checksum_area_end : Nat

/-- Result of one call to `read_chars_until_`: the returned Bool, the
updated router, the input bytes not yet consumed, and whether the
"Internal buffer full" warning was emitted. -/
structure ReadOut where
  found : Bool
  router : Router
  rest : List Nat
  warned : Bool

/-- `Mk2PVRouter::read_chars_until_(drop, c)` (mk2pvrouter.cpp lines
90-112).  The serial input is modelled as the list of bytes available to
`read()`; `j` is the iteration counter (`uint8_t j = 0; ... j++ < 128`). -/
def read_chars_aux (drop : Bool) (c : Nat) : Router → List Nat → Nat → ReadOut
  | r, [], _ => ⟨false, r, [], false⟩
  | r, received :: restInput, j =>
    if j < 128 then
      if received = c then ⟨true, r, restInput, false⟩
      else if drop then read_chars_aux drop c r restInput (j + 1)
      else if MAX_BUF_SIZE - 1 ≤ r.buf_index then
        -- "Internal buffer full": state_ = State::OFF; return false
        ⟨false, { r with state := State.OFF }, restInput, true⟩
      else
        read_chars_aux drop c
          { r with buf := fun i => if i = r.buf_index then received else r.buf i,
                   buf_index := r.buf_index + 1 }
          restInput (j + 1)
    else ⟨false, r, received :: restInput, false⟩

def read_chars_until (drop : Bool) (c : Nat) (r : Router) (input : List Nat) : ReadOut :=
  read_chars_aux drop c r input 0

/-- `Mk2PVRouter::setup()` (mk2pvrouter.cpp line 117). -/
def setupFn (r : Router) : Router := { r with state := State.OFF }

/-- `Mk2PVRouter::update()` (mk2pvrouter.cpp lines 122-127). -/
def updateFn (r : Router) : Router :=
  if r.state = State.OFF then { r with buf_index := 0, state := State.ON } else r

/-- Result of one call to `loop()`: updated router, unconsumed input,
`(tag, value)` pairs passed to `publish_value_`, warning flag. -/
structure LoopOut where
  router : Router
  rest : List Nat
  published : List (List Nat × List Nat)
  warned : Bool

/-- `Mk2PVRouter::loop()` (mk2pvrouter.cpp lines 138-209). -/
def loopFn (r : Router) (input : List Nat) : LoopOut :=
  match r.state with
  | State.OFF => ⟨r, input, [], false⟩
  | State.ON =>
    let o := read_chars_until true START_FRAME r input
    if o.found then
      ⟨{ o.router with state := State.START_FRAME_RECEIVED }, o.rest, [], o.warned⟩
    else ⟨o.router, o.rest, [], o.warned⟩
  | State.START_FRAME_RECEIVED =>
    let o := read_chars_until false END_FRAME r input
    if o.found then
      ⟨{ o.router with state := State.END_FRAME_RECEIVED }, o.rest, [], o.warned⟩
    else ⟨o.router, o.rest, [], o.warned⟩
  | State.END_FRAME_RECEIVED =>
    let tr := parseFrame r.buf r.buf_index r.checksum_area_end
    ⟨{ r with state := State.OFF }, input, tr.published, false⟩

/-- Result of iterating `loop()`. -/
structure RunOut where
  router : Router
  rest : List Nat
  published : List (List Nat × List Nat)
  warned : Bool

/-- Iterate `loop()` `m` times, threading the unconsumed input and
accumulating emissions and warnings. -/
def runLoops : Nat → Router → List Nat → RunOut
  | 0, r, input => ⟨r, input, [], false⟩
  | m + 1, r, input =>
    let o := loopFn r input
    let rec' := runLoops m o.router o.rest
    ⟨rec'.router, rec'.rest, o.published ++ rec'.published, o.warned || rec'.warned⟩

/-! ## The listener dispatcher (mk2pvrouter.cpp lines 217-223, 248-250)

A listener is modelled by its stored tag (the bytes of
`Mk2PVRouterListener::tag`); `register_mk2pvrouter_listener` appends to
the list.  `publish_value_` is modelled as the list of
(listener position, delivered value) invocations it performs, in order. -/

def publish_value_aux (tag val : List Nat) : List (List Nat) → Nat → List (Nat × List Nat)
  | [], _ => []
  | t :: rest, i =>
    if t ≠ tag then publish_value_aux tag val rest (i + 1)
    else (i, val) :: publish_value_aux tag val rest (i + 1)

/-- `Mk2PVRouter::publish_value_(tag, val)` over the registered listener
tags, returning the performed `publish_val` invocations. -/
def publish_value (listeners : List (List Nat)) (tag val : List Nat) :
    List (Nat × List Nat) :=
  publish_value_aux tag val listeners 0

/-- The dispatch behaviour as §4.6 of the specification words it: exactly
the listeners whose stored tag equals the incoming tag, in registration
order, each once, with the incoming value.  (Spec-side definition, to be
compared with `publish_value`.) -/
def dispatchSpec (listeners : List (List Nat)) (tag val : List Nat) :
    List (Nat × List Nat) :=
  ((listeners.enumFrom 0).filter (fun p => p.2 = tag)).map (fun p => (p.1, val))

/-! ## Well-formed frames

A frame between the start and end markers is described as a sequence of
blocks; each block is a record-shaped byte group.  `Blk.record t v c` is
`0x0a | t | 0x09 | v | 0x09 | c | 0x0d` (with arbitrary checksum byte
`c`); `Blk.noDelim content` is `0x0a | content | crc | 0x0d` with a
correct checksum but no tab delimiter inside. -/

inductive Blk where
  | record (t v : List Nat) (c : Nat)
  | noDelim (content : List Nat)
  deriving Repr, DecidableEq

/-- The checksum byte of a `0x0a | t | 0x09 | v | 0x09 | crc | 0x0d`
record: `calculate_crc_` over the span `t ++ 0x09 ++ v ++ 0x09 ++ crc`
with `checksum_area_end_ = 1` (the trailing byte is excluded from the sum,
so any placeholder works in its position). -/
def crcByte (t v : List Nat) : Nat :=
  calculate_crc (t ++ TAB :: v ++ [TAB, 0]) 1

/-- The checksum byte of a delimiter-free record span `content ++ crc`. -/
def contentCrc (content : List Nat) : Nat :=
  calculate_crc (content ++ [0]) 1

/-- The bytes of a block after its leading line feed. -/
def blkBody : Blk → List Nat
  | Blk.record t v c => t ++ TAB :: v ++ [TAB, c, CARRIAGE_RETURN]
  | Blk.noDelim content => content ++ [contentCrc content, CARRIAGE_RETURN]

def blkBytes (b : Blk) : List Nat := LINE_FEED :: blkBody b

/-- A byte allowed inside a tag or value field: anything that is not NUL
(so `std::string` keeps it), not the tab delimiter, and not a record
delimiter. -/
def fieldByte (b : Nat) : Prop :=
  b ≠ 0 ∧ b ≠ TAB ∧ b ≠ LINE_FEED ∧ b ≠ CARRIAGE_RETURN

instance : DecidablePred fieldByte := fun b => by unfold fieldByte; infer_instance

/-- Structural sanity of a block: fields contain only field bytes, and the
checksum-byte position does not hold a record delimiter. -/
def blkOK : Blk → Prop
  | Blk.record t v c =>
      (∀ b ∈ t, fieldByte b) ∧ (∀ b ∈ v, fieldByte b) ∧
      c ≠ LINE_FEED ∧ c ≠ CARRIAGE_RETURN
  | Blk.noDelim content =>
      ∀ b ∈ content, b ≠ TAB ∧ b ≠ LINE_FEED ∧ b ≠ CARRIAGE_RETURN

instance : DecidablePred blkOK := fun b => by
  cases b <;> unfold blkOK <;> infer_instance

/-- The measurements the record scan emits for one block: one per record
whose checksum byte is correct and whose two fields are non-empty and
short enough; none otherwise. -/
def blkPublishes : Blk → List (List Nat × List Nat)
  | Blk.record t v c =>
      if c = crcByte t v ∧ t ≠ [] ∧ t.length < MAX_TAG_SIZE ∧
          v ≠ [] ∧ v.length < MAX_VAL_SIZE then [(t, v)] else []
  | Blk.noDelim _ => []

/-- A record carrying a valid checksum and non-empty, short tag and value
fields (the premise of testable property §8.1). -/
def goodRecord (t v : List Nat) : Prop :=
  t ≠ [] ∧ t.length < MAX_TAG_SIZE ∧ (∀ b ∈ t, fieldByte b) ∧
  v ≠ [] ∧ v.length < MAX_VAL_SIZE ∧ (∀ b ∈ v, fieldByte b)

instance : ∀ t v, Decidable (goodRecord t v) := fun t v => by
  unfold goodRecord; infer_instance

/-- The frame bytes of a list of valid records. -/
def goodFrameBytes (rs : List (List Nat × List Nat)) : List Nat :=
  ((rs.map (fun p => Blk.record p.1 p.2 (crcByte p.1 p.2))).map blkBytes).flatten


/-! ## Lemmas: the list-level memchr -/

theorem memchrList_some {c : Nat} :
    ∀ {l : List Nat} {i : Nat}, memchrList c l = some i →
      i < l.length ∧ l.getD i 0 = c ∧ ∀ j, j < i → l.getD j 0 ≠ c := by
  intro l
  induction l with
  | nil => intro i h; simp [memchrList] at h
  | cons b rest ih =>
    intro i h
    by_cases hb : b = c
    · simp [memchrList, hb] at h
      subst h
      refine ⟨by simp, by simpa using hb, ?_⟩
      intro j hj; omega
    · simp [memchrList, hb] at h
      obtain ⟨i', hi', rfl⟩ := h
      obtain ⟨h1, h2, h3⟩ := ih hi'
      refine ⟨by simpa using h1, by simpa using h2, ?_⟩
      intro j hj
      match j with
      | 0 => simpa using hb
      | j' + 1 => simpa using h3 j' (by omega)

theorem memchrList_none {c : Nat} :
    ∀ {l : List Nat}, memchrList c l = none ↔ ∀ b ∈ l, b ≠ c := by
  intro l
  induction l with
  | nil => simp [memchrList]
  | cons b rest ih =>
    by_cases hb : b = c
    · simp [memchrList, hb]
    · simp [memchrList, hb, ih]

theorem memchrList_intro {c : Nat} :
    ∀ {l : List Nat} {i : Nat}, i < l.length → l.getD i 0 = c →
      (∀ j, j < i → l.getD j 0 ≠ c) → memchrList c l = some i := by
  intro l
  induction l with
  | nil => intro i h; simp at h
  | cons b rest ih =>
    intro i hlen hget hfirst
    match i with
    | 0 => simp at hget; simp [memchrList, hget]
    | i' + 1 =>
      have hb : b ≠ c := by simpa using hfirst 0 (by omega)
      have := ih (by simpa using hlen) (by simpa using hget)
        (fun j hj => by simpa using hfirst (j + 1) (by omega))
      simp [memchrList, hb, this]

/-! ## Lemmas: buffer agreement and ranges -/

theorem agrees_nil {buf : Nat → Nat} {base : Nat} : agrees buf base [] := by
  intro i hi; simp at hi

theorem agrees_cons {buf : Nat → Nat} {base x : Nat} {l : List Nat} :
    agrees buf base (x :: l) ↔ buf base = x ∧ agrees buf (base + 1) l := by
  constructor
  · intro h
    refine ⟨by simpa using h 0 (by simp), ?_⟩
    intro i hi
    have := h (i + 1) (by simpa using hi)
    simpa [Nat.add_comm, Nat.add_assoc, Nat.add_left_comm] using this
  · rintro ⟨h1, h2⟩ i hi
    match i with
    | 0 => simpa using h1
    | i' + 1 =>
      have := h2 i' (by simpa using hi)
      simpa [Nat.add_comm, Nat.add_assoc, Nat.add_left_comm] using this

theorem agrees_append {buf : Nat → Nat} {l1 l2 : List Nat} :
    ∀ {base : Nat}, agrees buf base (l1 ++ l2) ↔
      agrees buf base l1 ∧ agrees buf (base + l1.length) l2 := by
  induction l1 with
  | nil => intro base; simp [agrees_nil]
  | cons x rest ih =>
    intro base
    have h1 : (x :: rest) ++ l2 = x :: (rest ++ l2) := by simp
    rw [h1, agrees_cons, ih, agrees_cons]
    constructor
    · rintro ⟨ha, hb, hc⟩
      exact ⟨⟨ha, hb⟩, by simpa [Nat.add_comm, Nat.add_assoc, Nat.add_left_comm] using hc⟩
    · rintro ⟨⟨ha, hb⟩, hc⟩
      exact ⟨ha, hb, by simpa [Nat.add_comm, Nat.add_assoc, Nat.add_left_comm] using hc⟩

theorem bufRange_zero {buf : Nat → Nat} {base : Nat} : bufRange buf base 0 = [] := by
  simp [bufRange]

theorem bufRange_succ {buf : Nat → Nat} {base len : Nat} :
    bufRange buf base (len + 1) = buf base :: bufRange buf (base + 1) len := by
  unfold bufRange
  rw [List.range_succ_eq_map]
  simp [Nat.add_comm, Nat.add_assoc, Nat.add_left_comm, Function.comp]

theorem bufRange_eq {buf : Nat → Nat} :
    ∀ {l : List Nat} {base : Nat}, agrees buf base l → bufRange buf base l.length = l := by
  intro l
  induction l with
  | nil => intro base _; simpa using bufRange_zero
  | cons x rest ih =>
    intro base h
    rw [agrees_cons] at h
    simpa [bufRange_succ, h.1] using ih h.2

theorem bufRange_getD {buf : Nat → Nat} {base len i : Nat} (h : i < len) :
    (bufRange buf base len).getD i 0 = buf (base + i) := by
  induction len generalizing base i with
  | zero => omega
  | succ len' ih =>
    rw [bufRange_succ]
    match i with
    | 0 => simp
    | i' + 1 =>
      have := @ih (base + 1) i' (by omega)
      simpa [Nat.add_comm, Nat.add_assoc, Nat.add_left_comm] using this

theorem bufRange_length {buf : Nat → Nat} {base len : Nat} :
    (bufRange buf base len).length = len := by simp [bufRange]

/-! ## Lemmas: buffer-level memchr -/

theorem memchrFrom_some {buf : Nat → Nat} {f len c r : Nat}
    (h : memchrFrom buf f len c = some r) :
    f ≤ r ∧ r < f + len ∧ buf r = c ∧ ∀ i, f ≤ i → i < r → buf i ≠ c := by
  unfold memchrFrom at h
  obtain ⟨i, hi, rfl⟩ := Option.map_eq_some'.mp h
  obtain ⟨h1, h2, h3⟩ := memchrList_some hi
  rw [bufRange_length] at h1
  refine ⟨by omega, by omega, ?_, ?_⟩
  · rw [bufRange_getD h1] at h2; exact h2
  · intro j hj1 hj2
    have := h3 (j - f) (by omega)
    rw [bufRange_getD (by omega)] at this
    have hjf : f + (j - f) = j := by omega
    rw [hjf] at this
    exact this

theorem memchrFrom_none {buf : Nat → Nat} {f len c : Nat}
    (h : memchrFrom buf f len c = none) :
    ∀ i, f ≤ i → i < f + len → buf i ≠ c := by
  unfold memchrFrom at h
  rw [Option.map_eq_none'] at h
  rw [memchrList_none] at h
  intro i h1 h2 hc
  have hlt : i - f < (bufRange buf f len).length := by rw [bufRange_length]; omega
  have hmem : buf i ∈ bufRange buf f len := by
    have heq : buf i = (bufRange buf f len).getD (i - f) 0 := by
      rw [bufRange_getD (by omega)]
      congr 1; omega
    rw [heq, List.getD_eq_getElem?_getD, List.getElem?_eq_getElem hlt]
    simp only [Option.getD_some]
    exact List.getElem_mem hlt
  exact h _ hmem hc

theorem memchrFrom_found {buf : Nat → Nat} {f len c q : Nat}
    (h1 : f ≤ q) (h2 : q < f + len) (h3 : buf q = c)
    (h4 : ∀ i, f ≤ i → i < q → buf i ≠ c) :
    memchrFrom buf f len c = some q := by
  unfold memchrFrom
  have : memchrList c (bufRange buf f len) = some (q - f) := by
    apply memchrList_intro
    · rw [bufRange_length]; omega
    · rw [bufRange_getD (by omega)]
      have : f + (q - f) = q := by omega
      rw [this]; exact h3
    · intro j hj
      rw [bufRange_getD (by omega)]
      exact h4 _ (by omega) (by omega)
  rw [this]
  simp; omega

theorem memchrExamined_bound {buf : Nat → Nat} {f len c : Nat} :
    ∀ i ∈ memchrExamined buf f len c, f ≤ i ∧ i < f + len := by
  intro i hi
  unfold memchrExamined at hi
  cases h : memchrList c (bufRange buf f len) with
  | none =>
    rw [h] at hi
    simp at hi
    obtain ⟨x, hx, rfl⟩ := hi
    omega
  | some j =>
    rw [h] at hi
    simp at hi
    obtain ⟨x, hx, rfl⟩ := hi
    have := (memchrList_some h).1
    rw [bufRange_length] at this
    omega

/-! ## Lemmas: the checksum computation -/

theorem foldl_mod256 :
    ∀ (l : List Nat) (a : Nat), a < 256 →
      l.foldl (fun x b => (x + b) % 256) a = (a + l.sum) % 256 := by
  intro l
  induction l with
  | nil => intro a ha; simpa using (Nat.mod_eq_of_lt ha).symm
  | cons b rest ih =>
    intro a ha
    have h1 := ih ((a + b) % 256) (Nat.mod_lt _ (by omega))
    simp only [List.foldl_cons, List.sum_cons]
    rw [h1, Nat.mod_add_mod]
    congr 1
    omega

theorem and63_eq_mod (x : Nat) : x &&& 63 = x % 64 := by
  have := Nat.and_pow_two_sub_one_eq_mod x 6
  simpa using this

/-- The C checksum equals the specification formula: sum of all bytes but
the last `k`, reduced mod 64, plus 0x20. -/
theorem calculate_crc_eq (l : List Nat) (k : Nat) :
    calculate_crc l k = (l.take (l.length - k)).sum % 64 + 0x20 := by
  unfold calculate_crc
  rw [foldl_mod256 _ 0 (by omega)]
  rw [and63_eq_mod]
  rw [Nat.mod_mod_of_dvd _ (by omega)]
  simp

/-! ## Lemmas: field extraction -/

theorem get_field_none {region : List Nat} {m : Nat} (h : ∀ b ∈ region, b ≠ TAB) :
    get_field region m = (0, none) := by
  unfold get_field
  rw [(memchrList_none).mpr h]

theorem take_append_exact {α : Type} (pre post : List α) :
    (pre ++ post).take pre.length = pre := by
  rw [List.take_append_eq_append_take]
  simp

theorem get_field_found {pre post : List Nat} {m : Nat} (h : ∀ b ∈ pre, b ≠ TAB) :
    get_field (pre ++ TAB :: post) m =
      if m ≤ pre.length then (pre.length, none)
      else (pre.length, some (pre ++ [0])) := by
  unfold get_field
  have hfind : memchrList TAB (pre ++ TAB :: post) = some pre.length := by
    apply memchrList_intro
    · simp
    · rw [List.getD_eq_getElem?_getD]
      rw [List.getElem?_append_right (by omega)]
      simp
    · intro j hj
      rw [List.getD_eq_getElem?_getD]
      rw [List.getElem?_append_left (by omega)]
      rw [List.getElem?_eq_getElem hj]
      simpa using h _ (List.getElem_mem hj)
  rw [hfind]
  by_cases hm : m ≤ pre.length
  · simp [hm]
  · simp [hm, take_append_exact]

theorem get_field_fst {region : List Nat} {m : Nat} :
    (get_field region m).1 = 0 ∨ (get_field region m).1 < region.length := by
  unfold get_field
  cases h : memchrList TAB region with
  | none => simp
  | some i =>
    have := (memchrList_some h).1
    by_cases hm : m ≤ i <;> simp [hm] <;> omega

theorem cString_append_zero {l : List Nat} (h : ∀ b ∈ l, b ≠ 0) :
    cString (l ++ [0]) = l := by
  induction l with
  | nil => simp [cString, List.takeWhile]
  | cons x rest ih =>
    have hx : x ≠ 0 := h x (by simp)
    have hrest := ih (fun b hb => h b (by simp [hb]))
    simp only [cString, List.cons_append, List.takeWhile_cons] at hrest ⊢
    simp only [decide_eq_true_eq] at hrest ⊢
    rw [if_pos hx, hrest]

/-! ## Lemmas: the frame reader -/

/-- Behaviour common to every call of `read_chars_aux`. -/
theorem read_chars_aux_spec (drop : Bool) (c : Nat) :
    ∀ (input : List Nat) (r : Router) (j : Nat),
      (input.length - (read_chars_aux drop c r input j).rest.length ≤ 128 - j) ∧
      ((read_chars_aux drop c r input j).warned = false →
        (read_chars_aux drop c r input j).router.state = r.state) ∧
      ((read_chars_aux drop c r input j).found = true →
        ∃ pre, input = pre ++ c :: (read_chars_aux drop c r input j).rest ∧ c ∉ pre) ∧
      (∀ i, i < r.buf_index →
        (read_chars_aux drop c r input j).router.buf i = r.buf i) ∧
      (∀ i, MAX_BUF_SIZE - 1 ≤ i →
        (read_chars_aux drop c r input j).router.buf i = r.buf i) ∧
      (r.buf_index ≤ (read_chars_aux drop c r input j).router.buf_index) ∧
      ((read_chars_aux drop c r input j).router.buf_index ≤ r.buf_index ∨
        (read_chars_aux drop c r input j).router.buf_index ≤ MAX_BUF_SIZE - 1) ∧
      ((read_chars_aux drop c r input j).found = true →
        ∀ i, r.buf_index ≤ i → i < (read_chars_aux drop c r input j).router.buf_index →
          (read_chars_aux drop c r input j).router.buf i ≠ c) ∧
      ((read_chars_aux drop c r input j).found = false →
        input.length - (read_chars_aux drop c r input j).rest.length = 128 - j ∨
        (read_chars_aux drop c r input j).rest = [] ∨
        (read_chars_aux drop c r input j).warned = true) ∧
      (drop = true → (read_chars_aux drop c r input j).router = r) ∧
      ((read_chars_aux drop c r input j).router.checksum_area_end =
        r.checksum_area_end) ∧
      ((read_chars_aux drop c r input j).rest.length ≤ input.length) := by
  intro input
  induction input with
  | nil =>
    intro r j
    have heq : read_chars_aux drop c r [] j = ⟨false, r, [], false⟩ := by
      simp [read_chars_aux]
    rw [heq]
    refine ⟨by simp, fun _ => rfl, by simp, fun i _ => rfl, fun i _ => rfl,
      Nat.le_refl _, Or.inl (Nat.le_refl _), by simp, fun _ => Or.inr (Or.inl rfl),
      fun _ => rfl, rfl, Nat.le_refl _⟩
  | cons received restInput ih =>
    intro r j
    by_cases hj : j < 128
    · by_cases hc : received = c
      · -- target byte read: return found, byte consumed, nothing stored
        have heq : read_chars_aux drop c r (received :: restInput) j =
            ⟨true, r, restInput, false⟩ := by
          simp only [read_chars_aux]; rw [if_pos hj, if_pos hc]
        rw [heq]
        refine ⟨by simp only [List.length_cons]; omega, fun _ => rfl, ?_,
          fun i _ => rfl, fun i _ => rfl, Nat.le_refl _, Or.inl (Nat.le_refl _), ?_,
          by simp, fun _ => rfl, rfl, by simp⟩
        · intro _; exact ⟨[], by simp [hc], by simp⟩
        · intro _ i h1 h2
          have h2' : i < r.buf_index := h2
          exact absurd h1 (by omega)
      · by_cases hdrop : drop
        · -- drop mode: discard the byte and continue
          have heq : read_chars_aux drop c r (received :: restInput) j =
              read_chars_aux drop c r restInput (j + 1) := by
            simp only [read_chars_aux]; rw [if_pos hj, if_neg hc, if_pos hdrop]
          rw [heq]
          obtain ⟨h1, h2, h3, h4, h5, h6, h7, h8, h9, h10, h11, h12⟩ := ih r (j + 1)
          refine ⟨by simp only [List.length_cons]; omega, h2, ?_, h4, h5, h6, h7, h8,
            ?_, fun _ => h10 hdrop, h11, by simp only [List.length_cons]; omega⟩
          · intro hf
            obtain ⟨pre, hpre, hmem⟩ := h3 hf
            refine ⟨received :: pre, by rw [List.cons_append, ← hpre], ?_⟩
            intro hmem2
            rcases List.mem_cons.mp hmem2 with h | h
            · exact hc h.symm
            · exact hmem h
          · intro hf
            rcases h9 hf with h | h | h
            · left; simp only [List.length_cons]; omega
            · right; left; exact h
            · right; right; exact h
        · by_cases hfull : MAX_BUF_SIZE - 1 ≤ r.buf_index
          · -- overflow: warn, force OFF
            have heq : read_chars_aux drop c r (received :: restInput) j =
                ⟨false, { r with state := State.OFF }, restInput, true⟩ := by
              simp only [read_chars_aux]
              rw [if_pos hj, if_neg hc, if_neg hdrop, if_pos hfull]
            rw [heq]
            refine ⟨by simp only [List.length_cons]; omega, by simp, by simp,
              fun i _ => rfl, fun i _ => rfl, Nat.le_refl _, Or.inl (Nat.le_refl _),
              by simp, fun _ => Or.inr (Or.inr rfl),
              fun h => absurd h hdrop, rfl, by simp⟩
          · -- store the byte and continue
            have heq : read_chars_aux drop c r (received :: restInput) j =
                read_chars_aux drop c
                  { r with buf := fun i => if i = r.buf_index then received else r.buf i,
                           buf_index := r.buf_index + 1 }
                  restInput (j + 1) := by
              simp only [read_chars_aux]
              rw [if_pos hj, if_neg hc, if_neg hdrop, if_neg hfull]
            rw [heq]
            set r' : Router :=
              { r with buf := fun i => if i = r.buf_index then received else r.buf i,
                       buf_index := r.buf_index + 1 } with hr'
            obtain ⟨h1, h2, h3, h4, h5, h6, h7, h8, h9, h10, h11, h12⟩ := ih r' (j + 1)
            have hbi : r'.buf_index = r.buf_index + 1 := rfl
            have hst : r'.state = r.state := rfl
            have hbufold : ∀ i, i ≠ r.buf_index → r'.buf i = r.buf i := by
              intro i hi; simp [hr', hi]
            refine ⟨by simp only [List.length_cons]; omega,
              by rw [hst] at h2; exact h2, ?_, ?_, ?_, by omega,
              by rw [hbi] at h7; simp only [MAX_BUF_SIZE] at hfull h7 ⊢; omega, ?_, ?_,
              fun h => absurd h hdrop, h11, by simp only [List.length_cons]; omega⟩
            · intro hf
              obtain ⟨pre, hpre, hmem⟩ := h3 hf
              refine ⟨received :: pre, by rw [List.cons_append, ← hpre], ?_⟩
              intro hmem2
              rcases List.mem_cons.mp hmem2 with h | h
              · exact hc h.symm
              · exact hmem h
            · intro i hi
              rw [h4 i (by omega), hbufold i (by omega)]
            · intro i hi
              rw [h5 i hi, hbufold i (by simp only [MAX_BUF_SIZE] at hi hfull; omega)]
            · intro hf i hlo hhi
              by_cases hib : i = r.buf_index
              · have hbuf : (read_chars_aux drop c r' restInput (j + 1)).router.buf i
                    = r'.buf i := h4 i (by omega)
                rw [hbuf, hib]
                simp [hr', hc]
              · exact h8 hf i (by omega) hhi
            · intro hf
              rcases h9 hf with h | h | h
              · left; simp only [List.length_cons]; omega
              · right; left; exact h
              · right; right; exact h
    · -- iteration cap reached: return not-found, nothing consumed
      have heq : read_chars_aux drop c r (received :: restInput) j =
          ⟨false, r, received :: restInput, false⟩ := by
        simp only [read_chars_aux]; rw [if_neg hj]
      rw [heq]
      refine ⟨by simp, fun _ => rfl, by simp, fun i _ => rfl, fun i _ => rfl,
        Nat.le_refl _, Or.inl (Nat.le_refl _), by simp, ?_, fun _ => rfl, rfl,
        Nat.le_refl _⟩
      intro _; left; simp; omega

/-- Unfolding `loop()` in state OFF: nothing happens. -/
theorem loopFn_OFF {r : Router} {input : List Nat} (h : r.state = State.OFF) :
    loopFn r input = ⟨r, input, [], false⟩ := by
  unfold loopFn; rw [h]

/-- Unfolding `loop()` in state ON. -/
theorem loopFn_ON {r : Router} {input : List Nat} (h : r.state = State.ON) :
    loopFn r input =
      (let o := read_chars_until true START_FRAME r input
       if o.found then
         ⟨{ o.router with state := State.START_FRAME_RECEIVED }, o.rest, [], o.warned⟩
       else ⟨o.router, o.rest, [], o.warned⟩) := by
  unfold loopFn; rw [h]

/-- Unfolding `loop()` in state START_FRAME_RECEIVED. -/
theorem loopFn_SFR {r : Router} {input : List Nat}
    (h : r.state = State.START_FRAME_RECEIVED) :
    loopFn r input =
      (let o := read_chars_until false END_FRAME r input
       if o.found then
         ⟨{ o.router with state := State.END_FRAME_RECEIVED }, o.rest, [], o.warned⟩
       else ⟨o.router, o.rest, [], o.warned⟩) := by
  unfold loopFn; rw [h]

/-- Unfolding `loop()` in state END_FRAME_RECEIVED: parse, then OFF. -/
theorem loopFn_EFR {r : Router} {input : List Nat}
    (h : r.state = State.END_FRAME_RECEIVED) :
    loopFn r input =
      ⟨{ r with state := State.OFF }, input,
        (parseFrame r.buf r.buf_index r.checksum_area_end).published, false⟩ := by
  unfold loopFn; rw [h]

/-- Exact behaviour of a non-drop `read_chars_until_` call on an input that
contains no occurrence of the target byte: either the buffer fills up
within this call (warning, state forced OFF), or exactly `128 - j` bytes
are consumed and stored. -/
theorem read_chars_no_target (c : Nat) :
    ∀ (input : List Nat) (r : Router) (j : Nat),
      c ∉ input → r.buf_index ≤ MAX_BUF_SIZE - 1 → j ≤ 128 →
      MAX_BUF_SIZE - r.buf_index ≤ input.length →
      (MAX_BUF_SIZE - r.buf_index ≤ 128 - j →
        (read_chars_aux false c r input j).warned = true ∧
        (read_chars_aux false c r input j).found = false ∧
        (read_chars_aux false c r input j).router.state = State.OFF) ∧
      (128 - j < MAX_BUF_SIZE - r.buf_index →
        (read_chars_aux false c r input j).warned = false ∧
        (read_chars_aux false c r input j).found = false ∧
        (read_chars_aux false c r input j).router.state = r.state ∧
        (read_chars_aux false c r input j).router.buf_index
          = r.buf_index + (128 - j) ∧
        (read_chars_aux false c r input j).rest = input.drop (128 - j) ∧
        (read_chars_aux false c r input j).router.checksum_area_end
          = r.checksum_area_end) := by
  intro input
  induction input with
  | nil =>
    intro r j hc hb hj hlen
    exact absurd hlen (by simp only [MAX_BUF_SIZE] at hb ⊢; simp; omega)
  | cons x rest ih =>
    intro r j hc hb hj hlen
    have hx : ¬ x = c := fun h => hc (by simp [h])
    by_cases hjlt : j < 128
    · by_cases hfull : MAX_BUF_SIZE - 1 ≤ r.buf_index
      · -- the triggering byte: warn, force OFF
        have heq : read_chars_aux false c r (x :: rest) j =
            ⟨false, { r with state := State.OFF }, rest, true⟩ := by
          simp only [read_chars_aux]
          rw [if_pos hjlt, if_neg hx, if_neg (by simp), if_pos hfull]
        rw [heq]
        constructor
        · intro _; exact ⟨rfl, rfl, rfl⟩
        · intro hlt
          exact absurd hlt (by simp only [MAX_BUF_SIZE] at hfull hb ⊢; omega)
      · -- store the byte and continue
        have heq : read_chars_aux false c r (x :: rest) j =
            read_chars_aux false c
              { r with buf := fun i => if i = r.buf_index then x else r.buf i,
                       buf_index := r.buf_index + 1 }
              rest (j + 1) := by
          simp only [read_chars_aux]
          rw [if_pos hjlt, if_neg hx, if_neg (by simp), if_neg hfull]
        rw [heq]
        set r' : Router :=
          { r with buf := fun i => if i = r.buf_index then x else r.buf i,
                   buf_index := r.buf_index + 1 } with hr'
        have hb' : r'.buf_index = r.buf_index + 1 := rfl
        have hs' : r'.state = r.state := rfl
        have hk' : r'.checksum_area_end = r.checksum_area_end := rfl
        have hc' : c ∉ rest := fun h => hc (by simp [h])
        obtain ⟨ih1, ih2⟩ := ih r' (j + 1) hc'
          (by rw [hb']; simp only [MAX_BUF_SIZE] at hfull ⊢; omega)
          (by omega)
          (by rw [hb']; simp only [List.length_cons] at hlen ⊢;
              simp only [MAX_BUF_SIZE] at hlen ⊢; omega)
        constructor
        · intro hcase
          exact ih1 (by rw [hb']; simp only [MAX_BUF_SIZE] at hcase ⊢; omega)
        · intro hcase
          obtain ⟨g1, g2, g3, g4, g5, g6⟩ :=
            ih2 (by rw [hb']; simp only [MAX_BUF_SIZE] at hcase ⊢; omega)
          refine ⟨g1, g2, by rw [g3, hs'], ?_, ?_, by rw [g6, hk']⟩
          · rw [g4, hb']; omega
          · rw [g5]
            have hdrop : 128 - j = (128 - (j + 1)) + 1 := by omega
            rw [hdrop, List.drop_succ_cons]
    · -- j = 128: iteration cap
      have hj128 : j = 128 := by omega
      have heq : read_chars_aux false c r (x :: rest) j =
          ⟨false, r, x :: rest, false⟩ := by
        simp only [read_chars_aux]; rw [if_neg hjlt]
      rw [heq]
      constructor
      · intro hcase
        exact absurd hcase (by simp only [MAX_BUF_SIZE] at hb ⊢; omega)
      · intro _
        refine ⟨rfl, rfl, rfl, ?_, by rw [hj128]; simp, rfl⟩
        show r.buf_index = r.buf_index + (128 - j)
        omega

/-- Repeatedly invoking `loop()` in START_FRAME_RECEIVED on an input with
no end marker and more bytes than the remaining buffer capacity reaches
the "Internal buffer full" warning and leaves the router OFF, with no
measurement published along the way. -/
theorem loops_reach_overflow :
    ∀ (d : Nat) (r : Router) (input : List Nat),
      r.state = State.START_FRAME_RECEIVED →
      r.buf_index ≤ MAX_BUF_SIZE - 1 →
      MAX_BUF_SIZE - r.buf_index ≤ d →
      END_FRAME ∉ input →
      MAX_BUF_SIZE - r.buf_index ≤ input.length →
      ∃ m, (runLoops m r input).warned = true ∧
           (runLoops m r input).router.state = State.OFF ∧
           (runLoops m r input).published = [] := by
  intro d
  induction d using Nat.strong_induction_on with
  | _ d ih =>
    intro r input hstate hb hd hnoend hlen
    obtain ⟨case1, case2⟩ := read_chars_no_target END_FRAME input r 0 hnoend hb
      (by omega) hlen
    by_cases hsmall : MAX_BUF_SIZE - r.buf_index ≤ 128
    · -- the overflow happens within this single call
      obtain ⟨w1, w2, w3⟩ := case1 (by omega)
      refine ⟨1, ?_⟩
      have hloop := @loopFn_SFR _ input hstate
      rw [show runLoops 1 r input =
        ⟨(loopFn r input).router, (loopFn r input).rest,
          (loopFn r input).published ++ [], (loopFn r input).warned || false⟩ from rfl]
      rw [hloop]
      simp only [read_chars_until] at w1 w2 w3 ⊢
      rw [if_neg (by rw [w2]; simp)]
      exact ⟨by simp [w1], w3, rfl⟩
    · -- a full 128-byte chunk is consumed; recurse
      obtain ⟨g1, g2, g3, g4, g5, g6⟩ := case2 (by omega)
      set o := read_chars_aux false END_FRAME r input 0 with ho
      have hloop : loopFn r input = ⟨o.router, o.rest, [], o.warned⟩ := by
        rw [loopFn_SFR hstate]
        simp only [read_chars_until, ← ho]
        rw [if_neg (by rw [g2]; simp)]
      have hrec := ih (d - 128) (by omega) o.router o.rest
        (by rw [g3]; exact hstate)
        (by rw [g4]; simp only [MAX_BUF_SIZE] at hsmall ⊢; omega)
        (by rw [g4]; simp only [MAX_BUF_SIZE] at hd hsmall ⊢; omega)
        (by rw [g5]; intro hmem; exact hnoend (List.mem_of_mem_drop hmem))
        (by rw [g4, g5]; simp only [List.length_drop];
            simp only [MAX_BUF_SIZE] at hlen hsmall ⊢; omega)
      obtain ⟨m, hm1, hm2, hm3⟩ := hrec
      refine ⟨m + 1, ?_, ?_, ?_⟩
      · rw [show (runLoops (m + 1) r input).warned
          = ((loopFn r input).warned || (runLoops m (loopFn r input).router
              (loopFn r input).rest).warned) from rfl]
        rw [hloop]
        simp only [hm1, Bool.or_true]
      · rw [show (runLoops (m + 1) r input).router
          = (runLoops m (loopFn r input).router (loopFn r input).rest).router from rfl]
        rw [hloop]
        exact hm2
      · rw [show (runLoops (m + 1) r input).published
          = (loopFn r input).published ++ (runLoops m (loopFn r input).router
              (loopFn r input).rest).published from rfl]
        rw [hloop]
        simp only [hm3, List.append_nil]

/-! ## Lemmas: the record scan -/

/-- For a fill length in `uint32_t` range, `buf_index_ - 1` is plain
subtraction as long as the buffer is non-empty. -/
theorem lfSearchLen_eq {n : Nat} (h1 : 1 ≤ n) (h2 : n < UINT32_MOD) :
    lfSearchLen n = n - 1 := by
  unfold lfSearchLen
  unfold UINT32_MOD at h2 ⊢
  have heq : n + 4294967296 - 1 = (n - 1) + 4294967296 := by omega
  rw [heq, Nat.add_mod_right]
  exact Nat.mod_eq_of_lt (by omega)

theorem parseAux_zero (buf : Nat → Nat) (n k f : Nat) :
    parseAux buf n k 0 f = ParseTrace.empty := rfl

theorem parseAux_succ (buf : Nat → Nat) (n k fuel f : Nat) :
    parseAux buf n k (fuel + 1) f =
      iterLF buf n k (fun f' => parseAux buf n k fuel f') f := rfl

theorem iterLF_none {buf : Nat → Nat} {n k : Nat} {cont : Nat → ParseTrace} {f : Nat}
    (h : memchrFrom buf f (lfSearchLen n) LINE_FEED = none) :
    iterLF buf n k cont f =
      { ParseTrace.empty with
          examinedLF := memchrExamined buf f (lfSearchLen n) LINE_FEED } := by
  rw [iterLF, h, Option.elim_none]

theorem iterLF_found {buf : Nat → Nat} {n k : Nat} {cont : Nat → ParseTrace} {f r : Nat}
    (h : memchrFrom buf f (lfSearchLen n) LINE_FEED = some r) (hr : r < n) :
    iterLF buf n k cont f =
      { iterCR buf n k cont (r + 1) with
          examinedLF := memchrExamined buf f (lfSearchLen n) LINE_FEED
            ++ (iterCR buf n k cont (r + 1)).examinedLF,
          examinedCR := memchrExamined buf (r + 1) (n - (r + 1)) CARRIAGE_RETURN
            ++ (iterCR buf n k cont (r + 1)).examinedCR } := by
  rw [iterLF, h, Option.elim_some]
  exact if_pos hr

theorem iterLF_exit {buf : Nat → Nat} {n k : Nat} {cont : Nat → ParseTrace} {f r : Nat}
    (h : memchrFrom buf f (lfSearchLen n) LINE_FEED = some r) (hr : ¬ r < n) :
    iterLF buf n k cont f =
      { ParseTrace.empty with
          examinedLF := memchrExamined buf f (lfSearchLen n) LINE_FEED } := by
  rw [iterLF, h, Option.elim_some]
  exact if_neg hr

theorem iterCR_none {buf : Nat → Nat} {n k : Nat} {cont : Nat → ParseTrace} {f1 : Nat}
    (h : memchrFrom buf f1 (n - f1) CARRIAGE_RETURN = none) :
    iterCR buf n k cont f1 = ParseTrace.empty := by
  rw [iterCR, h, Option.elim_none]

theorem iterCR_found {buf : Nat → Nat} {n k : Nat} {cont : Nat → ParseTrace} {f1 e : Nat}
    (h : memchrFrom buf f1 (n - f1) CARRIAGE_RETURN = some e) :
    iterCR buf n k cont f1 =
      { iterFields buf n k cont f1 e with
          records := (f1, e) :: (iterFields buf n k cont f1 e).records } := by
  rw [iterCR, h, Option.elim_some]

/-- `iterFields` always continues the scan at some cursor between `f1` and
`e + 2`, possibly prepending one published measurement. -/
theorem iterFields_shape (buf : Nat → Nat) (n k : Nat) (cont : Nat → ParseTrace)
    (f1 e : Nat) (he : f1 ≤ e) :
    ∃ f', f1 ≤ f' ∧ f' ≤ e + 2 ∧
      (iterFields buf n k cont f1 e = cont f' ∨
       ∃ pr, iterFields buf n k cont f1 e =
          { cont f' with published := pr :: (cont f').published }) := by
  unfold iterFields
  split
  · dsimp only
    split
    · exact ⟨f1, Nat.le_refl _, by omega, Or.inl rfl⟩
    · rename_i htagcond
      have htag := @get_field_fst (bufRange buf f1 (e - f1)) MAX_TAG_SIZE
      rw [bufRange_length] at htag
      have htag2 : (get_field (bufRange buf f1 (e - f1)) MAX_TAG_SIZE).1 < e - f1 := by
        rcases htag with h | h
        · exact absurd (Or.inl h) htagcond
        · exact h
      split
      · exact ⟨f1 + (get_field (bufRange buf f1 (e - f1)) MAX_TAG_SIZE).1 + 1,
          by omega, by omega, Or.inl rfl⟩
      · rename_i hvalcond
        have hval := @get_field_fst
          (bufRange buf (f1 + (get_field (bufRange buf f1 (e - f1))
            MAX_TAG_SIZE).1 + 1)
            (e - (f1 + (get_field (bufRange buf f1 (e - f1)) MAX_TAG_SIZE).1 + 1)))
          MAX_VAL_SIZE
        rw [bufRange_length] at hval
        have hval2 : (get_field (bufRange buf (f1 + (get_field (bufRange buf f1 (e - f1))
            MAX_TAG_SIZE).1 + 1)
            (e - (f1 + (get_field (bufRange buf f1 (e - f1)) MAX_TAG_SIZE).1 + 1)))
            MAX_VAL_SIZE).1
            < e - (f1 + (get_field (bufRange buf f1 (e - f1)) MAX_TAG_SIZE).1 + 1) := by
          rcases hval with h | h
          · exact absurd (Or.inl h) hvalcond
          · exact h
        exact ⟨_, by omega, by omega, Or.inr ⟨_, rfl⟩⟩
  · exact ⟨f1, Nat.le_refl _, by omega, Or.inl rfl⟩

/-- Every record span the scan hands to `check_crc_` starts just past a
line feed found inside the filled region and ends at a carriage return
inside the filled region: `1 ≤ s ≤ e < n`. -/
theorem parseAux_records_bounds (buf : Nat → Nat) (n k : Nat) :
    ∀ (fuel f : Nat), ∀ p ∈ (parseAux buf n k fuel f).records,
      1 ≤ p.1 ∧ p.1 ≤ p.2 ∧ p.2 < n := by
  intro fuel
  induction fuel with
  | zero => intro f p hp; rw [parseAux_zero] at hp; exact absurd hp (by simp [ParseTrace.empty])
  | succ fuel ih =>
    intro f p hp
    rw [parseAux_succ] at hp
    cases hLF : memchrFrom buf f (lfSearchLen n) LINE_FEED with
    | none => rw [iterLF_none hLF] at hp; simp [ParseTrace.empty] at hp
    | some r =>
      by_cases hr : r < n
      · rw [iterLF_found hLF hr] at hp
        simp only at hp
        cases hCR : memchrFrom buf (r + 1) (n - (r + 1)) CARRIAGE_RETURN with
        | none => rw [iterCR_none hCR] at hp; simp [ParseTrace.empty] at hp
        | some e =>
          rw [iterCR_found hCR] at hp
          obtain ⟨he1, he2, he3, he4⟩ := memchrFrom_some hCR
          simp only [List.mem_cons] at hp
          rcases hp with rfl | hp
          · exact ⟨by omega, by omega, by omega⟩
          · obtain ⟨f', hf'1, hf'2, hshape⟩ :=
              iterFields_shape buf n k (fun f' => parseAux buf n k fuel f') (r + 1) e
                (by omega)
            rcases hshape with hsh | ⟨pr, hsh⟩
            · rw [hsh] at hp
              exact ih f' p hp
            · rw [hsh] at hp
              exact ih f' p hp
      · rw [iterLF_exit hLF hr] at hp
        simp [ParseTrace.empty] at hp

/-- Cursor bound and examined-index bounds for the scan: the
carriage-return searches stay inside the filled region; the line-feed
searches stay below twice the fill length (the search length is always
`fill - 1` from the current cursor, and the cursor never exceeds
`fill + 1`). -/
theorem parseAux_examined_bounds (buf : Nat → Nat) (n k : Nat)
    (hn1 : 1 ≤ n) (hn2 : n < UINT32_MOD) :
    ∀ (fuel f : Nat), f ≤ n + 1 →
      (∀ i ∈ (parseAux buf n k fuel f).examinedCR, i < n) ∧
      (∀ i ∈ (parseAux buf n k fuel f).examinedLF, i < 2 * n) := by
  intro fuel
  induction fuel with
  | zero =>
    intro f _
    rw [parseAux_zero]
    constructor <;> intro i hi <;> simp [ParseTrace.empty] at hi
  | succ fuel ih =>
    intro f hf
    have hlf : lfSearchLen n = n - 1 := lfSearchLen_eq hn1 hn2
    have hLFbound : ∀ i ∈ memchrExamined buf f (lfSearchLen n) LINE_FEED, i < 2 * n := by
      intro i hi
      have := memchrExamined_bound _ hi
      rw [hlf] at this
      omega
    rw [parseAux_succ]
    cases hLF : memchrFrom buf f (lfSearchLen n) LINE_FEED with
    | none =>
      rw [iterLF_none hLF]
      constructor <;> intro i hi <;> simp [ParseTrace.empty] at hi
      exact hLFbound i hi
    | some r =>
      by_cases hr : r < n
      · rw [iterLF_found hLF hr]
        have hCRbound :
            ∀ i ∈ memchrExamined buf (r + 1) (n - (r + 1)) CARRIAGE_RETURN, i < n := by
          intro i hi
          have := memchrExamined_bound _ hi
          omega
        cases hCR : memchrFrom buf (r + 1) (n - (r + 1)) CARRIAGE_RETURN with
        | none =>
          rw [iterCR_none hCR]
          constructor <;> intro i hi <;>
            simp only [List.mem_append, ParseTrace.empty] at hi
          · rcases hi with hi | hi
            · exact hCRbound i hi
            · simp at hi
          · rcases hi with hi | hi
            · exact hLFbound i hi
            · simp at hi
        | some e =>
          rw [iterCR_found hCR]
          obtain ⟨he1, he2, he3, he4⟩ := memchrFrom_some hCR
          obtain ⟨f', hf'1, hf'2, hshape⟩ :=
            iterFields_shape buf n k (fun f' => parseAux buf n k fuel f') (r + 1) e
              (by omega)
          have hf'3 : f' ≤ n + 1 := by omega
          obtain ⟨ihCR, ihLF⟩ := ih f' hf'3
          have hFieldsCR : ∀ i ∈ (iterFields buf n k
              (fun f' => parseAux buf n k fuel f') (r + 1) e).examinedCR, i < n := by
            rcases hshape with hsh | ⟨pr, hsh⟩ <;> rw [hsh] <;> exact ihCR
          have hFieldsLF : ∀ i ∈ (iterFields buf n k
              (fun f' => parseAux buf n k fuel f') (r + 1) e).examinedLF, i < 2 * n := by
            rcases hshape with hsh | ⟨pr, hsh⟩ <;> rw [hsh] <;> exact ihLF
          constructor <;> intro i hi <;> simp only [List.mem_append] at hi
          · rcases hi with hi | hi
            · exact hCRbound i hi
            · exact hFieldsCR i hi
          · rcases hi with hi | hi
            · exact hLFbound i hi
            · exact hFieldsLF i hi
      · rw [iterLF_exit hLF hr]
        constructor <;> intro i hi <;> simp [ParseTrace.empty] at hi
        exact hLFbound i hi

/-! ## Lemmas: well-formed frames and the full scan -/

theorem memchrFrom_none_intro {buf : Nat → Nat} {f len c : Nat}
    (h : ∀ i, f ≤ i → i < f + len → buf i ≠ c) :
    memchrFrom buf f len c = none := by
  unfold memchrFrom
  rw [Option.map_eq_none']
  rw [memchrList_none]
  intro b hb
  obtain ⟨i, hi, rfl⟩ := List.mem_map.mp hb
  have hi2 := List.mem_range.mp hi
  exact h (f + i) (by omega) (by omega)

/-- Pointwise property transfer through `agrees`. -/
theorem agrees_all {buf : Nat → Nat} {base : Nat} {l : List Nat}
    (h : agrees buf base l) (P : Nat → Prop) (hP : ∀ b ∈ l, P b) :
    ∀ i, base ≤ i → i < base + l.length → P (buf i) := by
  intro i h1 h2
  have hlt : i - base < l.length := by omega
  have heq : buf i = l.getD (i - base) 0 := by
    have := h (i - base) hlt
    have hib : base + (i - base) = i := by omega
    rw [hib] at this
    exact this
  rw [heq]
  have hgl : l.getD (i - base) 0 = l[i - base] := by
    rw [List.getD_eq_getElem?_getD, List.getElem?_eq_getElem hlt]
    rfl
  rw [hgl]
  exact hP _ (List.getElem_mem hlt)

theorem agrees_head {buf : Nat → Nat} {base x : Nat} {l : List Nat}
    (h : agrees buf base (x :: l)) : buf base = x :=
  (agrees_cons.mp h).1

/-- The checksum byte is always at least 0x20. -/
theorem calculate_crc_ge (l : List Nat) (k : Nat) : 0x20 ≤ calculate_crc l k := by
  unfold calculate_crc
  omega

theorem contentCrc_ge (content : List Nat) : 0x20 ≤ contentCrc content :=
  calculate_crc_ge _ _

theorem blkBody_length_ge (b : Blk) : 2 ≤ (blkBody b).length := by
  cases b <;> simp [blkBody] <;> omega

theorem blkBytes_length (b : Blk) : (blkBytes b).length = (blkBody b).length + 1 := by
  simp [blkBytes]

/-- Each block contributes at least three bytes, so a frame of `m` blocks
is at least `3 m` bytes long. -/
theorem blocks_length_le (blks : List Blk) :
    blks.length ≤ ((blks.map blkBytes).flatten).length := by
  induction blks with
  | nil => simp
  | cons b rest ih =>
    simp only [List.map_cons, List.flatten_cons, List.length_append, List.length_cons]
    have := blkBody_length_ge b
    rw [blkBytes_length]
    omega


/-- CRC mismatch: the record is skipped, scanning continues at `f1`. -/
theorem iterFields_crc_fail {buf : Nat → Nat} {n k : Nat} {cont : Nat → ParseTrace}
    {f1 e : Nat} (h : check_crc_at buf f1 e k = false) :
    iterFields buf n k cont f1 e = cont f1 := by
  unfold iterFields
  rw [if_neg (by simp [h])]

/-- Invalid tag (empty or too long): skipped, scanning continues at `f1`. -/
theorem iterFields_tag_reject {buf : Nat → Nat} {n k : Nat} {cont : Nat → ParseTrace}
    {f1 e : Nat} (h : check_crc_at buf f1 e k = true)
    (h2 : (get_field (bufRange buf f1 (e - f1)) MAX_TAG_SIZE).1 = 0 ∨
          MAX_TAG_SIZE ≤ (get_field (bufRange buf f1 (e - f1)) MAX_TAG_SIZE).1) :
    iterFields buf n k cont f1 e = cont f1 := by
  unfold iterFields
  rw [if_pos h]
  dsimp only
  rw [if_pos h2]

/-- Invalid value: skipped, scanning continues just past the tag. -/
theorem iterFields_val_reject {buf : Nat → Nat} {n k : Nat} {cont : Nat → ParseTrace}
    {f1 e : Nat} (h : check_crc_at buf f1 e k = true)
    (h2 : ¬((get_field (bufRange buf f1 (e - f1)) MAX_TAG_SIZE).1 = 0 ∨
          MAX_TAG_SIZE ≤ (get_field (bufRange buf f1 (e - f1)) MAX_TAG_SIZE).1))
    (h3 : (get_field (bufRange buf
            (f1 + (get_field (bufRange buf f1 (e - f1)) MAX_TAG_SIZE).1 + 1)
            (e - (f1 + (get_field (bufRange buf f1 (e - f1)) MAX_TAG_SIZE).1 + 1)))
            MAX_VAL_SIZE).1 = 0 ∨
          MAX_VAL_SIZE ≤ (get_field (bufRange buf
            (f1 + (get_field (bufRange buf f1 (e - f1)) MAX_TAG_SIZE).1 + 1)
            (e - (f1 + (get_field (bufRange buf f1 (e - f1)) MAX_TAG_SIZE).1 + 1)))
            MAX_VAL_SIZE).1) :
    iterFields buf n k cont f1 e =
      cont (f1 + (get_field (bufRange buf f1 (e - f1)) MAX_TAG_SIZE).1 + 1) := by
  unfold iterFields
  rw [if_pos h]
  dsimp only
  rw [if_neg h2]
  rw [if_pos h3]

/-- Valid record: one measurement is published, scanning continues past
the record. -/
theorem iterFields_publish {buf : Nat → Nat} {n k : Nat} {cont : Nat → ParseTrace}
    {f1 e : Nat} (h : check_crc_at buf f1 e k = true)
    (h2 : ¬((get_field (bufRange buf f1 (e - f1)) MAX_TAG_SIZE).1 = 0 ∨
          MAX_TAG_SIZE ≤ (get_field (bufRange buf f1 (e - f1)) MAX_TAG_SIZE).1))
    (h3 : ¬((get_field (bufRange buf
            (f1 + (get_field (bufRange buf f1 (e - f1)) MAX_TAG_SIZE).1 + 1)
            (e - (f1 + (get_field (bufRange buf f1 (e - f1)) MAX_TAG_SIZE).1 + 1)))
            MAX_VAL_SIZE).1 = 0 ∨
          MAX_VAL_SIZE ≤ (get_field (bufRange buf
            (f1 + (get_field (bufRange buf f1 (e - f1)) MAX_TAG_SIZE).1 + 1)
            (e - (f1 + (get_field (bufRange buf f1 (e - f1)) MAX_TAG_SIZE).1 + 1)))
            MAX_VAL_SIZE).1)) :
    iterFields buf n k cont f1 e =
      { cont (f1 + (get_field (bufRange buf f1 (e - f1)) MAX_TAG_SIZE).1 + 1
            + (get_field (bufRange buf
                (f1 + (get_field (bufRange buf f1 (e - f1)) MAX_TAG_SIZE).1 + 1)
                (e - (f1 + (get_field (bufRange buf f1 (e - f1)) MAX_TAG_SIZE).1 + 1)))
                MAX_VAL_SIZE).1 + 3) with
          published :=
            (cString ((get_field (bufRange buf f1 (e - f1)) MAX_TAG_SIZE).2.getD []),
             cString ((get_field (bufRange buf
                (f1 + (get_field (bufRange buf f1 (e - f1)) MAX_TAG_SIZE).1 + 1)
                (e - (f1 + (get_field (bufRange buf f1 (e - f1)) MAX_TAG_SIZE).1 + 1)))
                MAX_VAL_SIZE).2.getD []))
              :: (cont (f1 + (get_field (bufRange buf f1 (e - f1)) MAX_TAG_SIZE).1 + 1
                + (get_field (bufRange buf
                    (f1 + (get_field (bufRange buf f1 (e - f1)) MAX_TAG_SIZE).1 + 1)
                    (e - (f1 + (get_field (bufRange buf f1 (e - f1)) MAX_TAG_SIZE).1 + 1)))
                    MAX_VAL_SIZE).1 + 3)).published } := by
  unfold iterFields
  rw [if_pos h]
  dsimp only
  rw [if_neg h2]
  rw [if_neg h3]


theorem agrees_congr {buf : Nat → Nat} {b1 b2 : Nat} {l : List Nat}
    (h : agrees buf b1 l) (he : b1 = b2) : agrees buf b2 l := he ▸ h

/-- Membership in a record span `t ++ (TAB :: (v ++ [TAB, c]))`. -/
theorem mem_span_cases {t v : List Nat} {c x : Nat}
    (hx : x ∈ t ++ (TAB :: (v ++ [TAB, c]))) :
    x ∈ t ∨ x = TAB ∨ x ∈ v ∨ x = c := by
  rcases List.mem_append.mp hx with h | h
  · exact Or.inl h
  · rcases List.mem_cons.mp h with h | h
    · exact Or.inr (Or.inl h)
    · rcases List.mem_append.mp h with h | h
      · exact Or.inr (Or.inr (Or.inl h))
      · rcases List.mem_cons.mp h with h | h
        · exact Or.inr (Or.inl h)
        · rcases List.mem_cons.mp h with h | h
          · exact Or.inr (Or.inr (Or.inr h))
          · exact absurd h (List.not_mem_nil x)

/-- Membership in a record body `t ++ (TAB :: (v ++ [TAB, c, CARRIAGE_RETURN]))`. -/
theorem mem_body_cases {t v : List Nat} {c x : Nat}
    (hx : x ∈ t ++ (TAB :: (v ++ [TAB, c, CARRIAGE_RETURN]))) :
    x ∈ t ∨ x = TAB ∨ x ∈ v ∨ x = c ∨ x = CARRIAGE_RETURN := by
  rcases List.mem_append.mp hx with h | h
  · exact Or.inl h
  · rcases List.mem_cons.mp h with h | h
    · exact Or.inr (Or.inl h)
    · rcases List.mem_append.mp h with h | h
      · exact Or.inr (Or.inr (Or.inl h))
      · rcases List.mem_cons.mp h with h | h
        · exact Or.inr (Or.inl h)
        · rcases List.mem_cons.mp h with h | h
          · exact Or.inr (Or.inr (Or.inr (Or.inl h)))
          · rcases List.mem_cons.mp h with h | h
            · exact Or.inr (Or.inr (Or.inr (Or.inr h)))
            · exact absurd h (List.not_mem_nil x)

/-- Membership in `v ++ [TAB, c, CARRIAGE_RETURN]`. -/
theorem mem_vtail_cases {v : List Nat} {c x : Nat}
    (hx : x ∈ v ++ [TAB, c, CARRIAGE_RETURN]) :
    x ∈ v ∨ x = TAB ∨ x = c ∨ x = CARRIAGE_RETURN := by
  rcases List.mem_append.mp hx with h | h
  · exact Or.inl h
  · rcases List.mem_cons.mp h with h | h
    · exact Or.inr (Or.inl h)
    · rcases List.mem_cons.mp h with h | h
      · exact Or.inr (Or.inr (Or.inl h))
      · rcases List.mem_cons.mp h with h | h
        · exact Or.inr (Or.inr (Or.inr h))
        · exact absurd h (List.not_mem_nil x)

/-- Membership in `content ++ [cc, CARRIAGE_RETURN]`. -/
theorem mem_ctail_cases {content : List Nat} {cc x : Nat}
    (hx : x ∈ content ++ [cc, CARRIAGE_RETURN]) :
    x ∈ content ∨ x = cc ∨ x = CARRIAGE_RETURN := by
  rcases List.mem_append.mp hx with h | h
  · exact Or.inl h
  · rcases List.mem_cons.mp h with h | h
    · exact Or.inr (Or.inl h)
    · rcases List.mem_cons.mp h with h | h
      · exact Or.inr (Or.inr h)
      · exact absurd h (List.not_mem_nil x)

/-- Processing one structurally sound block at the head of the unscanned
region: one loop iteration consumes the whole block, publishing its
measurement exactly when the block is a valid record, and the scan resumes
with the rest of the region (possibly from inside the skipped block, whose
remaining bytes contain no line feed). -/
theorem parse_step_blk (buf : Nat → Nat) (n : Nat) (hn : n < UINT32_MOD)
    (b : Blk) (fuel f : Nat) (junk restB : List Nat)
    (hok : blkOK b)
    (hjunk : ∀ x ∈ junk, x ≠ LINE_FEED)
    (hagree : agrees buf f (junk ++ blkBytes b ++ restB))
    (hlen : f + (junk ++ blkBytes b ++ restB).length = n) :
    ∃ f' junk',
      (∀ x ∈ junk', x ≠ LINE_FEED) ∧
      agrees buf f' (junk' ++ restB) ∧
      f' + (junk' ++ restB).length = n ∧
      (parseAux buf n 1 (fuel + 1) f).published
        = blkPublishes b ++ (parseAux buf n 1 fuel f').published := by
  have hTABv : TAB = 9 := rfl
  have hLFv : LINE_FEED = 10 := rfl
  have hCRv : CARRIAGE_RETURN = 13 := rfl
  have hlen2 : f + junk.length + ((blkBody b).length + 1) + restB.length = n := by
    simp only [List.length_append, blkBytes, List.length_cons] at hlen
    omega
  rw [List.append_assoc] at hagree
  rw [agrees_append] at hagree
  obtain ⟨hagJunk, hag2⟩ := hagree
  have hag2' : agrees buf (f + junk.length)
      (LINE_FEED :: (blkBody b ++ restB)) := by
    have hx : blkBytes b ++ restB = LINE_FEED :: (blkBody b ++ restB) := by
      simp [blkBytes]
    rw [hx] at hag2
    exact hag2
  rw [agrees_cons] at hag2'
  obtain ⟨hbufq, hag3⟩ := hag2'
  have hbody2 := blkBody_length_ge b
  have hn1 : 1 ≤ n := by omega
  have hlf := lfSearchLen_eq hn1 hn
  have hfound : memchrFrom buf f (lfSearchLen n) LINE_FEED
      = some (f + junk.length) := by
    apply memchrFrom_found
    · omega
    · rw [hlf]; omega
    · exact hbufq
    · intro i h1 h2
      exact agrees_all hagJunk (· ≠ LINE_FEED) hjunk i h1 (by omega)
  have hq_lt : f + junk.length < n := by omega
  rw [parseAux_succ, iterLF_found hfound hq_lt]
  cases b with
  | record t v c =>
    have hok' : (∀ x ∈ t, fieldByte x) ∧ (∀ x ∈ v, fieldByte x) ∧
        c ≠ LINE_FEED ∧ c ≠ CARRIAGE_RETURN := hok
    obtain ⟨ht, hv, hc10, hc13⟩ := hok'
    have hbody : blkBody (Blk.record t v c)
        = t ++ TAB :: v ++ [TAB, c, CARRIAGE_RETURN] := rfl
    rw [hbody] at hag3 hlen2
    simp only [List.length_append, List.length_cons, List.length_nil] at hlen2
    -- re-associate the body to the canonical span form
    have hag3c : agrees buf (f + junk.length + 1)
        ((t ++ (TAB :: (v ++ [TAB, c, CARRIAGE_RETURN]))) ++ restB) := by
      rw [show (t ++ (TAB :: (v ++ [TAB, c, CARRIAGE_RETURN]))) ++ restB
          = (t ++ TAB :: v ++ [TAB, c, CARRIAGE_RETURN]) ++ restB from by simp]
      exact hag3
    have hag4 : agrees buf (f + junk.length + 1)
        ((t ++ (TAB :: (v ++ [TAB, c]))) ++ (CARRIAGE_RETURN :: restB)) := by
      rw [show (t ++ (TAB :: (v ++ [TAB, c]))) ++ (CARRIAGE_RETURN :: restB)
          = (t ++ (TAB :: (v ++ [TAB, c, CARRIAGE_RETURN]))) ++ restB from by simp]
      exact hag3c
    rw [agrees_append] at hag4
    obtain ⟨hspan, hag5⟩ := hag4
    have hspanlen : (t ++ (TAB :: (v ++ [TAB, c]))).length
        = t.length + v.length + 3 := by
      simp only [List.length_append, List.length_cons, List.length_nil]
      omega
    rw [hspanlen] at hag5
    rw [agrees_cons] at hag5
    obtain ⟨hbufCR, hagRest⟩ := hag5
    -- the value sub-span and the checksum byte
    have hvalAg : agrees buf (f + junk.length + 1 + t.length + 1)
        (v ++ [TAB, c]) := by
      have hsp := hspan
      rw [show t ++ (TAB :: (v ++ [TAB, c])) = (t ++ [TAB]) ++ (v ++ [TAB, c])
        from by simp] at hsp
      rw [agrees_append] at hsp
      refine agrees_congr hsp.2 ?_
      simp only [List.length_append, List.length_cons, List.length_nil]
      omega
    have hbufc : buf (f + junk.length + 1 + t.length + 1 + v.length + 1) = c := by
      have hsp := hvalAg
      rw [show v ++ [TAB, c] = (v ++ [TAB]) ++ [c] from by simp] at hsp
      rw [agrees_append] at hsp
      exact agrees_head (agrees_congr hsp.2
        (show f + junk.length + 1 + t.length + 1 + (v ++ [TAB]).length
            = f + junk.length + 1 + t.length + 1 + v.length + 1 from by
          simp only [List.length_append, List.length_cons, List.length_nil]
          omega))
    -- the carriage-return search finds the end of the record
    have hspanP : ∀ x ∈ t ++ (TAB :: (v ++ [TAB, c])), x ≠ CARRIAGE_RETURN := by
      intro x hx
      rcases mem_span_cases hx with h | h | h | h
      · exact (ht x h).2.2.2
      · rw [h]; omega
      · exact (hv x h).2.2.2
      · rw [h]; exact hc13
    have hCRfound : memchrFrom buf (f + junk.length + 1)
        (n - (f + junk.length + 1)) CARRIAGE_RETURN
        = some (f + junk.length + 1 + (t.length + v.length + 3)) := by
      apply memchrFrom_found
      · omega
      · omega
      · exact hbufCR
      · intro i h1 h2
        refine agrees_all hspan (· ≠ CARRIAGE_RETURN) hspanP i h1 ?_
        rw [hspanlen]; omega
    rw [iterCR_found hCRfound]
    dsimp only
    -- record span and checksum
    have hrangeSpan : bufRange buf (f + junk.length + 1)
        (f + junk.length + 1 + (t.length + v.length + 3) - (f + junk.length + 1))
        = t ++ (TAB :: (v ++ [TAB, c])) := by
      rw [show f + junk.length + 1 + (t.length + v.length + 3) - (f + junk.length + 1)
          = (t ++ (TAB :: (v ++ [TAB, c]))).length from by rw [hspanlen]; omega]
      exact bufRange_eq hspan
    have hgen : ∀ x : Nat, calculate_crc ((t ++ (TAB :: (v ++ [TAB]))) ++ [x]) 1
        = ((t ++ (TAB :: (v ++ [TAB]))).sum % 64) + 0x20 := by
      intro x
      rw [calculate_crc_eq]
      rw [show ((t ++ (TAB :: (v ++ [TAB]))) ++ [x]).length - 1
          = (t ++ (TAB :: (v ++ [TAB]))).length from by
        simp only [List.length_append, List.length_cons, List.length_nil]
        omega]
      rw [take_append_exact]
    have hcalc : calculate_crc (t ++ (TAB :: (v ++ [TAB, c]))) 1 = crcByte t v := by
      rw [show t ++ (TAB :: (v ++ [TAB, c])) = (t ++ (TAB :: (v ++ [TAB]))) ++ [c]
        from by simp]
      rw [hgen]
      unfold crcByte
      rw [show t ++ TAB :: v ++ [TAB, 0] = (t ++ (TAB :: (v ++ [TAB]))) ++ [0]
        from by simp]
      rw [hgen]
    have hcrcEq : check_crc_at buf (f + junk.length + 1)
        (f + junk.length + 1 + (t.length + v.length + 3)) 1 = (c == crcByte t v) := by
      unfold check_crc_at
      rw [hrangeSpan, hcalc]
      rw [show crcRawIndex (f + junk.length + 1)
          (f + junk.length + 1 + (t.length + v.length + 3))
          = f + junk.length + 1 + t.length + 1 + v.length + 1 from by
        unfold crcRawIndex; omega]
      rw [hbufc]
    have htagNoTab : ∀ x ∈ t, x ≠ TAB := fun x hx => (ht x hx).2.1
    have hvalNoTab : ∀ x ∈ v, x ≠ TAB := fun x hx => (hv x hx).2.1
    have htagGF := @get_field_found t (v ++ [TAB, c]) MAX_TAG_SIZE htagNoTab
    -- the three LF-free continuation junks
    have hjunkBody : ∀ x ∈ t ++ (TAB :: (v ++ [TAB, c, CARRIAGE_RETURN])),
        x ≠ LINE_FEED := by
      intro x hx
      rcases mem_body_cases hx with h | h | h | h | h
      · exact (ht x h).2.2.1
      · rw [h]; omega
      · exact (hv x h).2.2.1
      · rw [h]; exact hc10
      · rw [h]; omega
    have hMT : MAX_TAG_SIZE = 16 := rfl
    have hMV : MAX_VAL_SIZE = 16 := rfl
    by_cases hcEq : c = crcByte t v
    · have hcrcTrue : check_crc_at buf (f + junk.length + 1)
          (f + junk.length + 1 + (t.length + v.length + 3)) 1 = true := by
        rw [hcrcEq, hcEq]
        simp
      by_cases hT : t.length = 0 ∨ MAX_TAG_SIZE ≤ t.length
      · -- tag rejected: whole record skipped, continue right after the LF
        have h2 : (get_field (bufRange buf (f + junk.length + 1)
            (f + junk.length + 1 + (t.length + v.length + 3) - (f + junk.length + 1)))
            MAX_TAG_SIZE).1 = 0 ∨
            MAX_TAG_SIZE ≤ (get_field (bufRange buf (f + junk.length + 1)
            (f + junk.length + 1 + (t.length + v.length + 3) - (f + junk.length + 1)))
            MAX_TAG_SIZE).1 := by
          rw [hrangeSpan, htagGF]
          split <;> simpa using hT
        rw [iterFields_tag_reject hcrcTrue h2]
        refine ⟨f + junk.length + 1, t ++ (TAB :: (v ++ [TAB, c, CARRIAGE_RETURN])),
          hjunkBody, hag3c, ?_, ?_⟩
        · simp only [List.length_append, List.length_cons, List.length_nil]
          omega
        · rw [show blkPublishes (Blk.record t v c)
              = if c = crcByte t v ∧ t ≠ [] ∧ t.length < MAX_TAG_SIZE ∧
                  v ≠ [] ∧ v.length < MAX_VAL_SIZE then [(t, v)] else [] from rfl]
          rw [if_neg (by
            rintro ⟨_, hne, hlt, _, _⟩
            rcases hT with hT | hT
            · exact hne (List.eq_nil_of_length_eq_zero hT)
            · omega)]
          simp
      · -- tag accepted
        have htagVal : get_field (bufRange buf (f + junk.length + 1)
            (f + junk.length + 1 + (t.length + v.length + 3) - (f + junk.length + 1)))
            MAX_TAG_SIZE = (t.length, some (t ++ [0])) := by
          rw [hrangeSpan, htagGF]
          rw [if_neg (fun hc => hT (Or.inr hc))]
        have h2' : ¬((get_field (bufRange buf (f + junk.length + 1)
            (f + junk.length + 1 + (t.length + v.length + 3) - (f + junk.length + 1)))
            MAX_TAG_SIZE).1 = 0 ∨
            MAX_TAG_SIZE ≤ (get_field (bufRange buf (f + junk.length + 1)
            (f + junk.length + 1 + (t.length + v.length + 3) - (f + junk.length + 1)))
            MAX_TAG_SIZE).1) := by
          rw [htagVal]
          simpa using hT
        have hrangeVal : bufRange buf
            (f + junk.length + 1 + (get_field (bufRange buf (f + junk.length + 1)
              (f + junk.length + 1 + (t.length + v.length + 3) - (f + junk.length + 1)))
              MAX_TAG_SIZE).1 + 1)
            (f + junk.length + 1 + (t.length + v.length + 3)
              - (f + junk.length + 1 + (get_field (bufRange buf (f + junk.length + 1)
                (f + junk.length + 1 + (t.length + v.length + 3) - (f + junk.length + 1)))
                MAX_TAG_SIZE).1 + 1))
            = v ++ [TAB, c] := by
          rw [htagVal]
          dsimp only
          rw [show f + junk.length + 1 + (t.length + v.length + 3)
              - (f + junk.length + 1 + t.length + 1)
              = (v ++ [TAB, c]).length from by
            simp only [List.length_append, List.length_cons, List.length_nil]
            omega]
          exact bufRange_eq hvalAg
        have hvalGF := @get_field_found v [c] MAX_VAL_SIZE hvalNoTab
        by_cases hV : v.length = 0 ∨ MAX_VAL_SIZE ≤ v.length
        · -- value rejected: record skipped, continue just past the tag
          have h3 : (get_field (bufRange buf
              (f + junk.length + 1 + (get_field (bufRange buf (f + junk.length + 1)
                (f + junk.length + 1 + (t.length + v.length + 3) - (f + junk.length + 1)))
                MAX_TAG_SIZE).1 + 1)
              (f + junk.length + 1 + (t.length + v.length + 3)
                - (f + junk.length + 1 + (get_field (bufRange buf (f + junk.length + 1)
                  (f + junk.length + 1 + (t.length + v.length + 3) - (f + junk.length + 1)))
                  MAX_TAG_SIZE).1 + 1)))
              MAX_VAL_SIZE).1 = 0 ∨
              MAX_VAL_SIZE ≤ (get_field (bufRange buf
              (f + junk.length + 1 + (get_field (bufRange buf (f + junk.length + 1)
                (f + junk.length + 1 + (t.length + v.length + 3) - (f + junk.length + 1)))
                MAX_TAG_SIZE).1 + 1)
              (f + junk.length + 1 + (t.length + v.length + 3)
                - (f + junk.length + 1 + (get_field (bufRange buf (f + junk.length + 1)
                  (f + junk.length + 1 + (t.length + v.length + 3) - (f + junk.length + 1)))
                  MAX_TAG_SIZE).1 + 1)))
              MAX_VAL_SIZE).1 := by
            rw [hrangeVal, hvalGF]
            split <;> simpa using hV
          rw [iterFields_val_reject hcrcTrue h2' h3, htagVal]
          dsimp only
          refine ⟨f + junk.length + 1 + t.length + 1, v ++ [TAB, c, CARRIAGE_RETURN],
            ?_, ?_, ?_, ?_⟩
          · intro x hx
            rcases mem_vtail_cases hx with h | h | h | h
            · exact (hv x h).2.2.1
            · rw [h]; omega
            · rw [h]; exact hc10
            · rw [h]; omega
          · rw [show (v ++ [TAB, c, CARRIAGE_RETURN]) ++ restB
                = (v ++ [TAB, c]) ++ (CARRIAGE_RETURN :: restB) from by simp]
            rw [agrees_append]
            refine ⟨hvalAg, ?_⟩
            rw [agrees_cons]
            constructor
            · rw [show f + junk.length + 1 + t.length + 1 + (v ++ [TAB, c]).length
                  = f + junk.length + 1 + (t.length + v.length + 3) from by
                simp only [List.length_append, List.length_cons, List.length_nil]
                omega]
              exact hbufCR
            · refine agrees_congr hagRest ?_
              simp only [List.length_append, List.length_cons, List.length_nil]
              omega
          · simp only [List.length_append, List.length_cons, List.length_nil]
            omega
          · rw [show blkPublishes (Blk.record t v c)
                = if c = crcByte t v ∧ t ≠ [] ∧ t.length < MAX_TAG_SIZE ∧
                    v ≠ [] ∧ v.length < MAX_VAL_SIZE then [(t, v)] else [] from rfl]
            rw [if_neg (by
              rintro ⟨_, _, _, hne, hlt⟩
              rcases hV with hV | hV
              · exact hne (List.eq_nil_of_length_eq_zero hV)
              · omega)]
            simp
        · -- value accepted: the measurement is published
          have hvalVal : get_field (bufRange buf
              (f + junk.length + 1 + (get_field (bufRange buf (f + junk.length + 1)
                (f + junk.length + 1 + (t.length + v.length + 3) - (f + junk.length + 1)))
                MAX_TAG_SIZE).1 + 1)
              (f + junk.length + 1 + (t.length + v.length + 3)
                - (f + junk.length + 1 + (get_field (bufRange buf (f + junk.length + 1)
                  (f + junk.length + 1 + (t.length + v.length + 3) - (f + junk.length + 1)))
                  MAX_TAG_SIZE).1 + 1)))
              MAX_VAL_SIZE = (v.length, some (v ++ [0])) := by
            rw [hrangeVal, hvalGF]
            rw [if_neg (fun hc => hV (Or.inr hc))]
          have h3' : ¬((get_field (bufRange buf
              (f + junk.length + 1 + (get_field (bufRange buf (f + junk.length + 1)
                (f + junk.length + 1 + (t.length + v.length + 3) - (f + junk.length + 1)))
                MAX_TAG_SIZE).1 + 1)
              (f + junk.length + 1 + (t.length + v.length + 3)
                - (f + junk.length + 1 + (get_field (bufRange buf (f + junk.length + 1)
                  (f + junk.length + 1 + (t.length + v.length + 3) - (f + junk.length + 1)))
                  MAX_TAG_SIZE).1 + 1)))
              MAX_VAL_SIZE).1 = 0 ∨
              MAX_VAL_SIZE ≤ (get_field (bufRange buf
              (f + junk.length + 1 + (get_field (bufRange buf (f + junk.length + 1)
                (f + junk.length + 1 + (t.length + v.length + 3) - (f + junk.length + 1)))
                MAX_TAG_SIZE).1 + 1)
              (f + junk.length + 1 + (t.length + v.length + 3)
                - (f + junk.length + 1 + (get_field (bufRange buf (f + junk.length + 1)
                  (f + junk.length + 1 + (t.length + v.length + 3) - (f + junk.length + 1)))
                  MAX_TAG_SIZE).1 + 1)))
              MAX_VAL_SIZE).1) := by
            rw [hvalVal]
            simpa using hV
          have hrangeValRed : bufRange buf (f + junk.length + 1 + t.length + 1)
              (f + junk.length + 1 + (t.length + v.length + 3)
                - (f + junk.length + 1 + t.length + 1)) = v ++ [TAB, c] := by
            rw [show f + junk.length + 1 + (t.length + v.length + 3)
                - (f + junk.length + 1 + t.length + 1)
                = (v ++ [TAB, c]).length from by
              simp only [List.length_append, List.length_cons, List.length_nil]
              omega]
            exact bufRange_eq hvalAg
          have hvalValRed : get_field (bufRange buf (f + junk.length + 1 + t.length + 1)
              (f + junk.length + 1 + (t.length + v.length + 3)
                - (f + junk.length + 1 + t.length + 1))) MAX_VAL_SIZE
              = (v.length, some (v ++ [0])) := by
            rw [hrangeValRed, hvalGF]
            rw [if_neg (fun hc => hV (Or.inr hc))]
          rw [iterFields_publish hcrcTrue h2' h3']
          dsimp only
          rw [htagVal]
          dsimp only
          rw [hvalValRed]
          dsimp only
          have ht0 : ∀ x ∈ t, x ≠ 0 := fun x hx => (ht x hx).1
          have hv0 : ∀ x ∈ v, x ≠ 0 := fun x hx => (hv x hx).1
          simp only [Option.getD_some]
          rw [cString_append_zero ht0, cString_append_zero hv0]
          have hTne : t ≠ [] := by
            intro hnil
            rw [hnil] at hT
            simp at hT
          have hVne : v ≠ [] := by
            intro hnil
            rw [hnil] at hV
            simp at hV
          have hTlt : t.length < MAX_TAG_SIZE := by
            rcases Nat.lt_or_ge t.length MAX_TAG_SIZE with h | h
            · exact h
            · exact absurd (Or.inr h) hT
          have hVlt : v.length < MAX_VAL_SIZE := by
            rcases Nat.lt_or_ge v.length MAX_VAL_SIZE with h | h
            · exact h
            · exact absurd (Or.inr h) hV
          refine ⟨f + junk.length + 1 + t.length + 1 + v.length + 3, [], ?_, ?_, ?_, ?_⟩
          · intro x hx; simp at hx
          · simp only [List.nil_append]
            exact agrees_congr hagRest (by omega)
          · simp only [List.nil_append]
            omega
          · rw [show blkPublishes (Blk.record t v c)
                = if c = crcByte t v ∧ t ≠ [] ∧ t.length < MAX_TAG_SIZE ∧
                    v ≠ [] ∧ v.length < MAX_VAL_SIZE then [(t, v)] else [] from rfl]
            rw [if_pos ⟨hcEq, hTne, hTlt, hVne, hVlt⟩]
            simp
    · -- CRC mismatch: record skipped, continue right after the LF
      have hcrcFalse : check_crc_at buf (f + junk.length + 1)
          (f + junk.length + 1 + (t.length + v.length + 3)) 1 = false := by
        rw [hcrcEq]
        simp [hcEq]
      rw [iterFields_crc_fail hcrcFalse]
      refine ⟨f + junk.length + 1, t ++ (TAB :: (v ++ [TAB, c, CARRIAGE_RETURN])),
        hjunkBody, hag3c, ?_, ?_⟩
      · simp only [List.length_append, List.length_cons, List.length_nil]
        omega
      · rw [show blkPublishes (Blk.record t v c)
            = if c = crcByte t v ∧ t ≠ [] ∧ t.length < MAX_TAG_SIZE ∧
                v ≠ [] ∧ v.length < MAX_VAL_SIZE then [(t, v)] else [] from rfl]
        rw [if_neg (by rintro ⟨h1, _⟩; exact hcEq h1)]
        simp
  | noDelim content =>
    have hokc : ∀ x ∈ content, x ≠ TAB ∧ x ≠ LINE_FEED ∧ x ≠ CARRIAGE_RETURN := hok
    have hbody : blkBody (Blk.noDelim content)
        = content ++ [contentCrc content, CARRIAGE_RETURN] := rfl
    rw [hbody] at hag3 hlen2
    simp only [List.length_append, List.length_cons, List.length_nil] at hlen2
    have hag3' := hag3
    have hag4 : agrees buf (f + junk.length + 1)
        ((content ++ [contentCrc content]) ++ (CARRIAGE_RETURN :: restB)) := by
      rw [show (content ++ [contentCrc content]) ++ (CARRIAGE_RETURN :: restB)
          = (content ++ [contentCrc content, CARRIAGE_RETURN]) ++ restB from by simp]
      exact hag3
    rw [agrees_append] at hag4
    obtain ⟨hspan, hag5⟩ := hag4
    rw [show (content ++ [contentCrc content]).length = content.length + 1 from by
      simp] at hag5
    rw [agrees_cons] at hag5
    obtain ⟨hbufCR, hagRest⟩ := hag5
    have hccGe := contentCrc_ge content
    have hspanP : ∀ x ∈ content ++ [contentCrc content], x ≠ CARRIAGE_RETURN := by
      intro x hx
      rcases List.mem_append.mp hx with h | h
      · exact (hokc x h).2.2
      · rcases List.mem_cons.mp h with h | h
        · rw [h]; omega
        · exact absurd h (List.not_mem_nil x)
    have hCRfound : memchrFrom buf (f + junk.length + 1)
        (n - (f + junk.length + 1)) CARRIAGE_RETURN
        = some (f + junk.length + 1 + (content.length + 1)) := by
      apply memchrFrom_found
      · omega
      · omega
      · exact hbufCR
      · intro i h1 h2
        refine agrees_all hspan (· ≠ CARRIAGE_RETURN) hspanP i h1 ?_
        simp only [List.length_append, List.length_cons, List.length_nil]
        omega
    rw [iterCR_found hCRfound]
    dsimp only
    have hrangeSpan : bufRange buf (f + junk.length + 1)
        (f + junk.length + 1 + (content.length + 1) - (f + junk.length + 1))
        = content ++ [contentCrc content] := by
      rw [show f + junk.length + 1 + (content.length + 1) - (f + junk.length + 1)
          = (content ++ [contentCrc content]).length from by simp]
      exact bufRange_eq hspan
    have hbufcc : buf (f + junk.length + 1 + content.length) = contentCrc content := by
      have hsp := hspan
      rw [agrees_append] at hsp
      exact agrees_head hsp.2
    have hcrcTrue : check_crc_at buf (f + junk.length + 1)
        (f + junk.length + 1 + (content.length + 1)) 1 = true := by
      unfold check_crc_at
      rw [hrangeSpan]
      rw [show crcRawIndex (f + junk.length + 1)
          (f + junk.length + 1 + (content.length + 1))
          = f + junk.length + 1 + content.length from by unfold crcRawIndex; omega]
      rw [hbufcc]
      have hcalcGen : ∀ x : Nat, calculate_crc (content ++ [x]) 1
          = (content.sum % 64) + 0x20 := by
        intro x
        rw [calculate_crc_eq]
        rw [show (content ++ [x]).length - 1 = content.length from by simp]
        rw [show (content ++ [x]).take content.length = content from
          take_append_exact content [x]]
      have hcalc : calculate_crc (content ++ [contentCrc content]) 1
          = contentCrc content := by
        rw [hcalcGen]
        unfold contentCrc
        rw [hcalcGen]
      rw [hcalc]
      simp
    have h2 : (get_field (bufRange buf (f + junk.length + 1)
        (f + junk.length + 1 + (content.length + 1) - (f + junk.length + 1)))
        MAX_TAG_SIZE).1 = 0 ∨
        MAX_TAG_SIZE ≤ (get_field (bufRange buf (f + junk.length + 1)
        (f + junk.length + 1 + (content.length + 1) - (f + junk.length + 1)))
        MAX_TAG_SIZE).1 := by
      rw [hrangeSpan]
      rw [get_field_none (by
        intro x hx
        rcases List.mem_append.mp hx with h | h
        · exact (hokc x h).1
        · rcases List.mem_cons.mp h with h | h
          · rw [h]; intro hcon; rw [hcon] at hccGe; omega
          · exact absurd h (List.not_mem_nil x))]
      simp
    rw [iterFields_tag_reject hcrcTrue h2]
    refine ⟨f + junk.length + 1, content ++ [contentCrc content, CARRIAGE_RETURN],
      ?_, hag3', ?_, ?_⟩
    · intro x hx
      rcases mem_ctail_cases hx with h | h | h
      · exact (hokc x h).2.1
      · rw [h]; intro hcon; rw [hcon] at hccGe; omega
      · rw [h]; omega
    · simp only [List.length_append, List.length_cons, List.length_nil]
      omega
    · rw [show blkPublishes (Blk.noDelim content) = [] from rfl]
      simp

/-- The record scan over a frame laid out as line-feed-free junk, then a
sequence of record-shaped blocks, then a remainder: each block contributes
exactly its own publications, in order. -/
theorem parse_blocks (buf : Nat → Nat) (n : Nat) (hn : n < UINT32_MOD) :
    ∀ (blks : List Blk) (fuel f : Nat) (junk restB : List Nat),
      blks.length ≤ fuel →
      (∀ b ∈ blks, blkOK b) →
      (∀ x ∈ junk, x ≠ LINE_FEED) →
      agrees buf f (junk ++ (blks.map blkBytes).flatten ++ restB) →
      f + (junk ++ (blks.map blkBytes).flatten ++ restB).length = n →
      ∃ f' junk',
        (∀ x ∈ junk', x ≠ LINE_FEED) ∧
        agrees buf f' (junk' ++ restB) ∧
        f' + (junk' ++ restB).length = n ∧
        (parseAux buf n 1 fuel f).published
          = (blks.map blkPublishes).flatten
            ++ (parseAux buf n 1 (fuel - blks.length) f').published := by
  intro blks
  induction blks with
  | nil =>
    intro fuel f junk restB hfuel hok hjunk hag hlen
    refine ⟨f, junk, hjunk, ?_, ?_, ?_⟩
    · simpa using hag
    · simpa using hlen
    · simp
  | cons b rest ih =>
    intro fuel f junk restB hfuel hok hjunk hag hlen
    have hfuel1 : 1 ≤ fuel := by
      simp only [List.length_cons] at hfuel; omega
    have hassoc : junk ++ (List.map blkBytes (b :: rest)).flatten ++ restB
        = junk ++ blkBytes b ++ ((rest.map blkBytes).flatten ++ restB) := by
      simp [List.append_assoc]
    rw [hassoc] at hag hlen
    obtain ⟨f1, junk1, hj1, hag1, hlen1, hpub1⟩ :=
      parse_step_blk buf n hn b (fuel - 1) f junk
        ((rest.map blkBytes).flatten ++ restB)
        (hok b (by simp)) hjunk hag hlen
    rw [show fuel - 1 + 1 = fuel from by omega] at hpub1
    rw [show junk1 ++ ((rest.map blkBytes).flatten ++ restB)
        = junk1 ++ (rest.map blkBytes).flatten ++ restB from by
      simp [List.append_assoc]] at hag1 hlen1
    obtain ⟨f2, junk2, hj2, hag2, hlen2, hpub2⟩ :=
      ih (fuel - 1) f1 junk1 restB
        (by simp only [List.length_cons] at hfuel; omega)
        (fun x hx => hok x (by simp [hx])) hj1 hag1 hlen1
    refine ⟨f2, junk2, hj2, hag2, hlen2, ?_⟩
    rw [hpub1, hpub2]
    rw [show fuel - 1 - rest.length = fuel - (b :: rest).length from by
      simp only [List.length_cons]; omega]
    simp [List.append_assoc]

/-- If the remaining span up to the fill length holds no line feed, the
scan publishes nothing more: the line-feed search either fails or lands at
or past the fill length, and the loop exits. -/
theorem parse_tail_noLF (buf : Nat → Nat) (n k : Nat) :
    ∀ (fuel f : Nat) (rest : List Nat),
      (∀ x ∈ rest, x ≠ LINE_FEED) →
      agrees buf f rest →
      f + rest.length = n →
      (parseAux buf n k fuel f).published = [] := by
  intro fuel f rest hrest hag hlen
  cases fuel with
  | zero => rfl
  | succ fuel =>
    rw [parseAux_succ]
    cases hLF : memchrFrom buf f (lfSearchLen n) LINE_FEED with
    | none => rw [iterLF_none hLF]; rfl
    | some r =>
      by_cases hr : r < n
      · obtain ⟨h1, h2, h3, h4⟩ := memchrFrom_some hLF
        exact absurd h3 (agrees_all hag (· ≠ LINE_FEED) hrest r h1 (by omega))
      · rw [iterLF_exit hLF hr]; rfl

/-- A line feed (preceded only by line-feed-free junk) whose record group
has no carriage-return delimiter before the fill length ends the scan:
nothing further is published. -/
theorem parse_tail_noCR (buf : Nat → Nat) (n k : Nat) (hn : n < UINT32_MOD) :
    ∀ (fuel f : Nat) (junk t : List Nat),
      (∀ x ∈ junk, x ≠ LINE_FEED) →
      (∀ x ∈ t, x ≠ CARRIAGE_RETURN) →
      agrees buf f (junk ++ LINE_FEED :: t) →
      f + (junk ++ LINE_FEED :: t).length = n →
      (parseAux buf n k fuel f).published = [] := by
  intro fuel f junk t hjunk ht hag hlen
  cases fuel with
  | zero => rfl
  | succ fuel =>
    rw [parseAux_succ]
    rw [agrees_append] at hag
    obtain ⟨hagJ, hag2⟩ := hag
    rw [agrees_cons] at hag2
    obtain ⟨hbufq, hagT⟩ := hag2
    have hlen2 : f + junk.length + 1 + t.length = n := by
      simp only [List.length_append, List.length_cons] at hlen; omega
    have hn1 : 1 ≤ n := by omega
    by_cases hedge : f + t.length = 0
    · -- the line feed sits at index `n - 1`, beyond the search length
      have hnone : memchrFrom buf f (lfSearchLen n) LINE_FEED = none := by
        apply memchrFrom_none_intro
        intro i hi1 hi2
        rw [lfSearchLen_eq hn1 hn] at hi2
        exact agrees_all hagJ (· ≠ LINE_FEED) hjunk i hi1 (by omega)
      rw [iterLF_none hnone]
      rfl
    · have hfound : memchrFrom buf f (lfSearchLen n) LINE_FEED
          = some (f + junk.length) := by
        apply memchrFrom_found
        · omega
        · rw [lfSearchLen_eq hn1 hn]; omega
        · exact hbufq
        · intro i h1 h2
          exact agrees_all hagJ (· ≠ LINE_FEED) hjunk i h1 (by omega)
      rw [iterLF_found hfound (by omega)]
      have hCRnone : memchrFrom buf (f + junk.length + 1)
          (n - (f + junk.length + 1)) CARRIAGE_RETURN = none := by
        apply memchrFrom_none_intro
        intro i h1 h2
        exact agrees_all hagT (· ≠ CARRIAGE_RETURN) ht i h1 (by omega)
      rw [iterCR_none hCRnone]
      rfl

/-- The iteration of `publish_value_` over the listener collection is
exactly the filter-by-tag map the specification describes. -/
theorem publish_value_aux_eq (tag val : List Nat) :
    ∀ (ls : List (List Nat)) (i : Nat),
      publish_value_aux tag val ls i
        = ((ls.enumFrom i).filter (fun p => p.2 = tag)).map
            (fun p => (p.1, val)) := by
  intro ls
  induction ls with
  | nil => intro i; rfl
  | cons t rest ih =>
    intro i
    simp only [publish_value_aux, List.enumFrom_cons, List.filter_cons]
    by_cases h : t = tag
    · rw [if_neg (fun hn => hn h)]
      subst h
      rw [ih]
      simp
    · rw [if_pos h]
      simp only [decide_eq_true_eq, h, if_false, ih]

/-- A frame holding exactly one block publishes that block's measurements
and nothing else. -/
theorem parse_one_block (buf : Nat → Nat) (b : Blk)
    (hok : blkOK b) (hag : agrees buf 0 (blkBytes b))
    (hn : (blkBytes b).length < UINT32_MOD) :
    (parseFrame buf (blkBytes b).length 1).published = blkPublishes b := by
  obtain ⟨f', junk', hj', hag', hlen', hpub⟩ :=
    parse_blocks buf (blkBytes b).length hn [b] ((blkBytes b).length + 1) 0 [] []
      (by simp only [List.length_cons, List.length_nil]; omega)
      (by intro x hx; simp only [List.mem_cons, List.not_mem_nil] at hx
          rcases hx with rfl | hx
          · exact hok
          · exact absurd hx (by simp))
      (by intro x hx; simp at hx)
      (by simpa using hag)
      (by simp)
  rw [parseFrame, hpub]
  have htail : (parseAux buf (blkBytes b).length 1
      ((blkBytes b).length + 1 - [b].length) f').published = [] := by
    apply parse_tail_noLF buf (blkBytes b).length 1 _ f' junk' hj'
    · simpa using hag'
    · simpa using hlen'
  rw [htail]
  simp

/-- The blocks of a frame of valid records publish exactly those records. -/
theorem goodFrame_publishes :
    ∀ rs : List (List Nat × List Nat), (∀ p ∈ rs, goodRecord p.1 p.2) →
      ((rs.map (fun p => Blk.record p.1 p.2 (crcByte p.1 p.2))).map
          blkPublishes).flatten = rs := by
  intro rs
  induction rs with
  | nil => intro _; rfl
  | cons p rest ih =>
    intro hgood
    obtain ⟨h1, h2, h3, h4, h5, h6⟩ := hgood p (by simp)
    simp only [List.map_cons, List.flatten_cons]
    rw [show blkPublishes (Blk.record p.1 p.2 (crcByte p.1 p.2))
        = if crcByte p.1 p.2 = crcByte p.1 p.2 ∧ p.1 ≠ [] ∧
            p.1.length < MAX_TAG_SIZE ∧ p.2 ≠ [] ∧ p.2.length < MAX_VAL_SIZE
          then [(p.1, p.2)] else [] from rfl]
    rw [if_pos ⟨rfl, h1, h2, h4, h5⟩]
    rw [ih (fun q hq => hgood q (by simp [hq]))]
    rfl

/-- A block built from a valid record is structurally sound: its fields
hold only field bytes and its checksum byte (at least 0x20) is not a
record delimiter. -/
theorem goodRecord_blkOK {t v : List Nat} (h : goodRecord t v) :
    blkOK (Blk.record t v (crcByte t v)) := by
  obtain ⟨h1, h2, h3, h4, h5, h6⟩ := h
  refine ⟨h3, h6, ?_, ?_⟩
  · have := calculate_crc_ge (t ++ TAB :: v ++ [TAB, 0]) 1
    rw [show crcByte t v = calculate_crc (t ++ TAB :: v ++ [TAB, 0]) 1 from rfl]
    intro hc; rw [hc] at this; exact absurd this (by decide)
  · have := calculate_crc_ge (t ++ TAB :: v ++ [TAB, 0]) 1
    rw [show crcByte t v = calculate_crc (t ++ TAB :: v ++ [TAB, 0]) 1 from rfl]
    intro hc; rw [hc] at this; exact absurd this (by decide)

/-! ## The claims -/

/-- C1: for a frame consisting of valid records (correct checksum byte,
non-empty tag and value fields shorter than the maxima), the record scan
publishes exactly one measurement per record, carrying the record's
original tag and value bytes, in order; and `publish_value_` invokes
exactly the registered listeners whose stored tag equals the measurement's
tag byte-for-byte, in registration order, each once with the same value. -/
theorem C1_valid_records_and_dispatch :
    (∀ (buf : Nat → Nat) (rs : List (List Nat × List Nat)),
      (∀ p ∈ rs, goodRecord p.1 p.2) →
      agrees buf 0 (goodFrameBytes rs) →
      (goodFrameBytes rs).length < UINT32_MOD →
      (parseFrame buf (goodFrameBytes rs).length 1).published = rs) ∧
    (∀ (listeners : List (List Nat)) (tag val : List Nat),
      publish_value listeners tag val = dispatchSpec listeners tag val) := by
  constructor
  · intro buf rs hgood hag hn
    set blks : List Blk := rs.map (fun p => Blk.record p.1 p.2 (crcByte p.1 p.2))
      with hblks
    have hframe : goodFrameBytes rs = (blks.map blkBytes).flatten := by
      rw [hblks]; rfl
    obtain ⟨f', junk', hj', hag', hlen', hpub⟩ :=
      parse_blocks buf (goodFrameBytes rs).length hn blks
        ((goodFrameBytes rs).length + 1) 0 [] []
        (le_trans (blocks_length_le blks) (by rw [← hframe]; omega))
        (by intro b hb
            obtain ⟨p, hp, rfl⟩ := List.mem_map.mp (hblks ▸ hb)
            exact goodRecord_blkOK (hgood p hp))
        (by intro x hx; simp at hx)
        (by simp only [List.nil_append, List.append_nil]; rw [← hframe]; exact hag)
        (by simp only [List.nil_append, List.append_nil, Nat.zero_add]
            rw [← hframe])
    rw [parseFrame, hpub]
    have htail : (parseAux buf (goodFrameBytes rs).length 1
        ((goodFrameBytes rs).length + 1 - blks.length) f').published = [] := by
      apply parse_tail_noLF buf (goodFrameBytes rs).length 1 _ f' junk' hj'
      · simpa using hag'
      · simpa using hlen'
    rw [htail, List.append_nil, hblks]
    exact goodFrame_publishes rs hgood
  · intro listeners tag val
    unfold publish_value dispatchSpec
    exact publish_value_aux_eq tag val listeners 0

/-- C1 witness: the one-record frame `0a 41 09 31 09 24 0d` publishes
exactly `(tag "A", value "1")`, and a three-listener collection with two
matching tags is dispatched as the specification describes. -/
theorem C1_valid_records_and_dispatch_witness :
    (parseFrame (fun j => (goodFrameBytes [([65], [49])]).getD j 10)
        (goodFrameBytes [([65], [49])]).length 1).published = [([65], [49])] ∧
    publish_value [[66], [65], [65]] [65] [49]
      = dispatchSpec [[66], [65], [65]] [65] [49] :=
  ⟨C1_valid_records_and_dispatch.1
      (fun j => (goodFrameBytes [([65], [49])]).getD j 10) [([65], [49])]
      (by decide) (by decide) (by decide),
   C1_valid_records_and_dispatch.2 [[66], [65], [65]] [65] [49]⟩

/-- C2: the checksum of a span with checksum-area-end `k` is the sum of
all bytes but the last `k`, reduced to the low 6 bits, plus 0x20; the
verifier succeeds exactly when the span's last byte equals the computed
checksum; and appending the recomputed checksum to any record content
makes verification succeed (round trip). -/
theorem C2_checksum_roundtrip :
    (∀ (l : List Nat) (k : Nat),
      calculate_crc l k = (l.take (l.length - k)).sum % 64 + 0x20) ∧
    (∀ (l : List Nat) (b : Nat) (k : Nat),
      check_crc (l ++ [b]) k = true ↔ b = calculate_crc (l ++ [b]) k) ∧
    (∀ content : List Nat,
      check_crc (content ++ [calculate_crc (content ++ [0]) 1]) 1 = true) := by
  have hlast : ∀ (l : List Nat) (b : Nat),
      (l ++ [b]).getD ((l ++ [b]).length - 1) 0 = b := by
    intro l b
    rw [show (l ++ [b]).length - 1 = l.length from by simp]
    rw [List.getD_eq_getElem?_getD, List.getElem?_append_right (le_refl l.length)]
    simp
  refine ⟨calculate_crc_eq, ?_, ?_⟩
  · intro l b k
    unfold check_crc
    rw [hlast]
    simp
  · intro content
    have hind : ∀ x, calculate_crc (content ++ [x]) 1
        = content.sum % 64 + 0x20 := by
      intro x
      rw [calculate_crc_eq]
      rw [show (content ++ [x]).length - 1 = content.length from by simp]
      rw [take_append_exact]
    unfold check_crc
    rw [hlast, hind, hind]
    simp

/-- C3 counterexample: with the four-byte frame `0a 0d 0a 0d` the
line-feed search examines indices 4 and 5, at and past the fill length 4;
the sentence "every byte the record-scan examines lies within the filled
region" is false, because the search length passed is `buf_index_ - 1`
from the current cursor rather than the remaining length. -/
theorem C3_counterexample :
    ¬ (∀ i ∈ (parseFrame (fun j => [10, 13, 10, 13].getD j 0) 4 1).examinedLF,
        i < 4) := by decide

/-- C3 (amended): the carriage-return searches examine only indices below
the fill length, but the line-feed searches may examine indices at or past
it.  For a non-zero fill length every index either search examines is
below twice the fill length; at fill length zero the length argument
`buf_index_ - 1` wraps to `2^32 - 1` and the (single) line-feed search may
examine any index below `2^32 - 1`, while the carriage-return search never
runs. -/
theorem C3_amended_scan_bounds (buf : Nat → Nat) (n k : Nat)
    (hn : n < UINT32_MOD) :
    (∀ i ∈ (parseFrame buf n k).examinedCR, i < n) ∧
    (∀ i ∈ (parseFrame buf n k).examinedLF,
      (1 ≤ n → i < 2 * n) ∧ (n = 0 → i < UINT32_MOD - 1)) := by
  by_cases hn1 : 1 ≤ n
  · obtain ⟨hcr, hlf⟩ := parseAux_examined_bounds buf n k hn1 hn (n + 1) 0
      (by omega)
    exact ⟨hcr, fun i hi =>
      ⟨fun _ => hlf i hi, fun h0 => absurd h0 (by omega)⟩⟩
  · have h0 : n = 0 := by omega
    subst h0
    have hL0 : lfSearchLen 0 = UINT32_MOD - 1 := by
      show (0 + UINT32_MOD - 1) % UINT32_MOD = UINT32_MOD - 1
      rw [Nat.zero_add]
      exact Nat.mod_eq_of_lt (by unfold UINT32_MOD; omega)
    have hPF : parseFrame buf 0 k = parseAux buf 0 k (0 + 1) 0 := rfl
    rw [hPF, parseAux_succ]
    cases hLF : memchrFrom buf 0 (lfSearchLen 0) LINE_FEED with
    | none =>
      rw [iterLF_none hLF]
      constructor <;> intro i hi <;> simp [ParseTrace.empty] at hi
      obtain ⟨hb1, hb2⟩ := memchrExamined_bound i hi
      rw [hL0] at hb2
      exact ⟨fun h1 => absurd h1 (by omega), fun _ => by omega⟩
    | some r =>
      rw [iterLF_exit hLF (by omega)]
      constructor <;> intro i hi <;> simp [ParseTrace.empty] at hi
      obtain ⟨hb1, hb2⟩ := memchrExamined_bound i hi
      rw [hL0] at hb2
      exact ⟨fun h1 => absurd h1 (by omega), fun _ => by omega⟩

/-- C3 amended witness: the bounds hold on the frame `0a 0d 0a 0d` of fill
length 4. -/
theorem C3_amended_scan_bounds_witness :
    (∀ i ∈ (parseFrame (fun j => [10, 13, 10, 13].getD j 0) 4 1).examinedCR,
      i < 4) ∧
    (∀ i ∈ (parseFrame (fun j => [10, 13, 10, 13].getD j 0) 4 1).examinedLF,
      (1 ≤ 4 → i < 2 * 4) ∧ (4 = 0 → i < UINT32_MOD - 1)) :=
  C3_amended_scan_bounds (fun j => [10, 13, 10, 13].getD j 0) 4 1 (by decide)

/-- C4 counterexample: the frame `0a 0d 0a 0d` contains an empty record (a
line feed immediately followed by a carriage return); the scan hands the
empty span `[1, 1)` to the checksum verifier, whose raw-checksum read
index `crcRawIndex 1 1 = 0` lies before the span start (`grp[-1]` in the C
code), refuting "a line-feed byte immediately followed by a
carriage-return byte never causes an access outside the record span". -/
theorem C4_counterexample :
    (1, 1) ∈ (parseFrame (fun j => [10, 13, 10, 13].getD j 0) 4 1).records ∧
    crcRawIndex 1 1 < 1 := by decide

/-- C4 (amended): every record span `[s, e)` handed to the checksum
verifier satisfies `1 ≤ s ≤ e < fill`; when the span is non-empty the
raw-checksum read index falls inside the span, but when it is empty
(`s = e`) the read falls at `s - 1`, before the span. -/
theorem C4_amended_record_spans (buf : Nat → Nat) (n k : Nat) :
    ∀ p ∈ (parseFrame buf n k).records,
      1 ≤ p.1 ∧ p.1 ≤ p.2 ∧ p.2 < n ∧
      (p.1 < p.2 → p.1 ≤ crcRawIndex p.1 p.2 ∧ crcRawIndex p.1 p.2 < p.2) ∧
      (p.1 = p.2 → crcRawIndex p.1 p.2 < p.1) := by
  intro p hp
  obtain ⟨h1, h2, h3⟩ := parseAux_records_bounds buf n k (n + 1) 0 p hp
  unfold crcRawIndex
  exact ⟨h1, h2, h3, fun h => ⟨by omega, by omega⟩, fun h => by omega⟩

/-- C4 amended witness: the record span `[1, 6)` of the valid one-record
frame `0a 41 09 31 09 24 0d` satisfies the amended bounds. -/
theorem C4_amended_record_spans_witness :
    1 ≤ ((1, 6) : Nat × Nat).1 ∧ ((1, 6) : Nat × Nat).1 ≤ ((1, 6) : Nat × Nat).2 ∧
    ((1, 6) : Nat × Nat).2 < 7 ∧
    (((1, 6) : Nat × Nat).1 < ((1, 6) : Nat × Nat).2 →
      ((1, 6) : Nat × Nat).1 ≤ crcRawIndex ((1, 6) : Nat × Nat).1 ((1, 6) : Nat × Nat).2 ∧
      crcRawIndex ((1, 6) : Nat × Nat).1 ((1, 6) : Nat × Nat).2 < ((1, 6) : Nat × Nat).2) ∧
    (((1, 6) : Nat × Nat).1 = ((1, 6) : Nat × Nat).2 →
      crcRawIndex ((1, 6) : Nat × Nat).1 ((1, 6) : Nat × Nat).2 < ((1, 6) : Nat × Nat).1) :=
  C4_amended_record_spans (fun j => [10, 65, 9, 49, 9, 36, 13].getD j 10) 7 1
    ((1, 6) : Nat × Nat) (by decide)

/-- C5: an input stream with no end marker and more bytes than the
remaining buffer capacity forces, within finitely many loop() invocations,
the "Internal buffer full" warning, the state OFF, and nothing published;
and update() on an OFF router resets the fill index to zero (and turns the
router ON), so the next cycle starts from an empty buffer. -/
theorem C5_overflow_discards (r : Router) (input : List Nat)
    (hstate : r.state = State.START_FRAME_RECEIVED)
    (hb : r.buf_index ≤ MAX_BUF_SIZE - 1)
    (hnoend : END_FRAME ∉ input)
    (hlen : MAX_BUF_SIZE - r.buf_index ≤ input.length) :
    (∃ m, (runLoops m r input).warned = true ∧
          (runLoops m r input).router.state = State.OFF ∧
          (runLoops m r input).published = []) ∧
    (∀ r' : Router, r'.state = State.OFF →
      (updateFn r').buf_index = 0 ∧ (updateFn r').state = State.ON) := by
  constructor
  · exact loops_reach_overflow (MAX_BUF_SIZE - r.buf_index) r input hstate hb
      (le_refl _) hnoend hlen
  · intro r' h
    unfold updateFn
    rw [if_pos h]
    exact ⟨rfl, rfl⟩

/-- C5 witness: a router eight bytes short of capacity overflows on eight
marker-free input bytes. -/
theorem C5_overflow_discards_witness :
    (∃ m, (runLoops m (⟨fun _ => 0, 1040, State.START_FRAME_RECEIVED, 1⟩ : Router)
              (List.replicate 8 65)).warned = true ∧
          (runLoops m (⟨fun _ => 0, 1040, State.START_FRAME_RECEIVED, 1⟩ : Router)
              (List.replicate 8 65)).router.state = State.OFF ∧
          (runLoops m (⟨fun _ => 0, 1040, State.START_FRAME_RECEIVED, 1⟩ : Router)
              (List.replicate 8 65)).published = []) ∧
    (∀ r' : Router, r'.state = State.OFF →
      (updateFn r').buf_index = 0 ∧ (updateFn r').state = State.ON) :=
  C5_overflow_discards ⟨fun _ => 0, 1040, State.START_FRAME_RECEIVED, 1⟩
    (List.replicate 8 65) rfl (by decide) (by decide) (by decide)

/-- C6: the field extractor returns 0 and leaves the destination unwritten
when the region holds no tab; returns the field length without writing
when the first tab lies at a distance at least the maximum; copies the
field bytes plus a NUL terminator and returns the length when the field is
shorter than the maximum; a field of length maximum-minus-one is accepted
and copied, one of length maximum rejected with the destination
unwritten. -/
theorem C6_get_field_contract :
    (∀ (region : List Nat) (m : Nat), (∀ b ∈ region, b ≠ TAB) →
      get_field region m = (0, none)) ∧
    (∀ (pre post : List Nat) (m : Nat), (∀ b ∈ pre, b ≠ TAB) →
      m ≤ pre.length → get_field (pre ++ TAB :: post) m = (pre.length, none)) ∧
    (∀ (pre post : List Nat) (m : Nat), (∀ b ∈ pre, b ≠ TAB) →
      pre.length < m →
      get_field (pre ++ TAB :: post) m = (pre.length, some (pre ++ [0]))) ∧
    (∀ (pre post : List Nat), (∀ b ∈ pre, b ≠ TAB) →
      pre.length = MAX_TAG_SIZE - 1 →
      get_field (pre ++ TAB :: post) MAX_TAG_SIZE
        = (pre.length, some (pre ++ [0]))) ∧
    (∀ (pre post : List Nat), (∀ b ∈ pre, b ≠ TAB) →
      pre.length = MAX_TAG_SIZE →
      get_field (pre ++ TAB :: post) MAX_TAG_SIZE = (pre.length, none)) := by
  refine ⟨fun region m h => get_field_none h, ?_, ?_, ?_, ?_⟩
  · intro pre post m h hm
    rw [get_field_found h, if_pos hm]
  · intro pre post m h hm
    rw [get_field_found h, if_neg (by omega)]
  · intro pre post h hlen
    rw [get_field_found h, if_neg (by rw [hlen]; decide)]
  · intro pre post h hlen
    rw [get_field_found h, if_pos (by rw [hlen])]

/-- C6 witness: concrete regions exercising all five branches, with the
boundary fields of lengths 15 and 16 against the maximum 16. -/
theorem C6_get_field_contract_witness :
    get_field [65, 66] 16 = (0, none) ∧
    get_field (List.replicate 16 65 ++ TAB :: [49]) 16
      = ((List.replicate 16 65).length, none) ∧
    get_field ([65] ++ TAB :: [49]) 16 = ([65].length, some ([65] ++ [0])) ∧
    get_field (List.replicate 15 65 ++ TAB :: [49]) MAX_TAG_SIZE
      = ((List.replicate 15 65).length, some (List.replicate 15 65 ++ [0])) ∧
    get_field (List.replicate 16 65 ++ TAB :: [49]) MAX_TAG_SIZE
      = ((List.replicate 16 65).length, none) :=
  ⟨C6_get_field_contract.1 [65, 66] 16 (by decide),
   C6_get_field_contract.2.1 (List.replicate 16 65) [49] 16 (by decide) (by decide),
   C6_get_field_contract.2.2.1 [65] [49] 16 (by decide) (by decide),
   C6_get_field_contract.2.2.2.1 (List.replicate 15 65) [49] (by decide) (by decide),
   C6_get_field_contract.2.2.2.2 (List.replicate 16 65) [49] (by decide) (by decide)⟩

/-- C7: within one frame, record-local failures (checksum mismatch,
missing tab delimiter, empty or too-long field) skip only the offending
record-shaped block and scanning continues, so a frame of sound blocks
followed by a line feed whose group has no carriage return publishes
exactly the per-block measurements: the missing carriage-return delimiter
stops the entire remaining frame while everything already published stays
published; and the loop() step that parses a frame always leaves the state
machine OFF. -/
theorem C7_record_local_vs_frame_fatal (buf : Nat → Nat) (n : Nat)
    (hn : n < UINT32_MOD) (blks : List Blk) (junk2 t : List Nat)
    (hok : ∀ b ∈ blks, blkOK b)
    (hjunk2 : ∀ x ∈ junk2, x ≠ LINE_FEED)
    (ht : ∀ x ∈ t, x ≠ CARRIAGE_RETURN)
    (hag : agrees buf 0
      ((blks.map blkBytes).flatten ++ (junk2 ++ LINE_FEED :: t)))
    (hlen : ((blks.map blkBytes).flatten ++ (junk2 ++ LINE_FEED :: t)).length
      = n) :
    (parseFrame buf n 1).published = (blks.map blkPublishes).flatten ∧
    (∀ (r : Router) (input : List Nat), r.state = State.END_FRAME_RECEIVED →
      (loopFn r input).router.state = State.OFF) := by
  constructor
  · obtain ⟨f', junk', hj', hag', hlen', hpub⟩ :=
      parse_blocks buf n hn blks (n + 1) 0 [] (junk2 ++ LINE_FEED :: t)
        (le_trans (blocks_length_le blks)
          (by simp only [List.length_append] at hlen; omega))
        hok (by intro x hx; simp at hx)
        (by simpa using hag)
        (by simp only [List.nil_append, Nat.zero_add]; exact hlen)
    rw [parseFrame, hpub]
    have hshift : (junk' ++ junk2) ++ LINE_FEED :: t
        = junk' ++ (junk2 ++ LINE_FEED :: t) := by
      simp [List.append_assoc]
    have htail : (parseAux buf n 1 (n + 1 - blks.length) f').published = [] := by
      refine parse_tail_noCR buf n 1 hn _ f' (junk' ++ junk2) t ?_ ht ?_ ?_
      · intro x hx
        rcases List.mem_append.mp hx with hx | hx
        · exact hj' x hx
        · exact hjunk2 x hx
      · rw [hshift]; exact hag'
      · rw [hshift]; exact hlen'
    rw [htail]
    simp
  · intro r input h
    rw [loopFn_EFR h]

/-- C7 witness: a frame holding a valid record, a record with a wrong
checksum byte, a delimiter-free group, and a trailing line feed with no
carriage return publishes exactly the first record's measurement, and the
parsing loop() step ends OFF. -/
theorem C7_record_local_vs_frame_fatal_witness :
    (parseFrame (fun j => [10, 65, 9, 49, 9, 36, 13, 10, 66, 9, 50, 9, 0, 13,
        10, 67, 35, 13, 10, 66, 9, 50].getD j 10) 22 1).published
      = (([Blk.record [65] [49] 36, Blk.record [66] [50] 0,
          Blk.noDelim [67]].map blkPublishes).flatten) ∧
    (∀ (r : Router) (input : List Nat), r.state = State.END_FRAME_RECEIVED →
      (loopFn r input).router.state = State.OFF) :=
  C7_record_local_vs_frame_fatal
    (fun j => [10, 65, 9, 49, 9, 36, 13, 10, 66, 9, 50, 9, 0, 13,
        10, 67, 35, 13, 10, 66, 9, 50].getD j 10) 22 (by decide)
    [Blk.record [65] [49] 36, Blk.record [66] [50] 0, Blk.noDelim [67]]
    [] [66, 9, 50] (by decide) (by decide) (by decide) (by decide) (by decide)

/-- C8: one invocation of `read_chars_until_` consumes at most 128 input
bytes; when it returns found, the input splits as a target-free consumed
prefix, the consumed (and discarded) target byte, and the unconsumed
remainder, and no byte stored in the frame buffer during the call is the
target; when it returns not-found, the 128-byte cap was hit, the input was
exhausted, or the overflow warning fired; and absent the warning the
router state is unchanged. -/
theorem C8_read_until_contract (drop : Bool) (c : Nat) (r : Router)
    (input : List Nat) :
    (input.length - (read_chars_until drop c r input).rest.length ≤ 128) ∧
    ((read_chars_until drop c r input).found = true →
      ∃ pre, input = pre ++ c :: (read_chars_until drop c r input).rest ∧
        c ∉ pre) ∧
    ((read_chars_until drop c r input).found = true →
      ∀ i, r.buf_index ≤ i →
        i < (read_chars_until drop c r input).router.buf_index →
        (read_chars_until drop c r input).router.buf i ≠ c) ∧
    ((read_chars_until drop c r input).found = false →
      input.length - (read_chars_until drop c r input).rest.length = 128 ∨
      (read_chars_until drop c r input).rest = [] ∨
      (read_chars_until drop c r input).warned = true) ∧
    ((read_chars_until drop c r input).warned = false →
      (read_chars_until drop c r input).router.state = r.state) := by
  obtain ⟨h1, h2, h3, h4, h5, h6, h7, h8, h9, h10, h11, h12⟩ :=
    read_chars_aux_spec drop c input r 0
  exact ⟨by simpa using h1, h3, h8, by simpa using h9, h2⟩

/-- C8 witness: on the input `41 03 42` with target 3, the call returns
found with the target consumed and the remainder `42` unconsumed. -/
theorem C8_read_until_contract_witness :
    ∃ pre, [65, 3, 66] = pre ++ 3 ::
        (read_chars_until false 3 (⟨fun _ => 0, 0, State.ON, 1⟩ : Router)
          [65, 3, 66]).rest ∧ (3 : Nat) ∉ pre :=
  (C8_read_until_contract false 3 ⟨fun _ => 0, 0, State.ON, 1⟩
    [65, 3, 66]).2.1 (by decide)

/-- C9: the fill index never exceeds the buffer capacity: setup(),
update(), the frame reader, and loop() each preserve the bound
`buf_index_ ≤ MAX_BUF_SIZE`, and neither the frame reader nor loop() ever
writes a buffer byte at an index at or past the capacity. -/
theorem C9_fill_within_capacity (r : Router) (input : List Nat)
    (drop : Bool) (c : Nat) (h : r.buf_index ≤ MAX_BUF_SIZE) :
    ((setupFn r).buf_index ≤ MAX_BUF_SIZE) ∧
    ((updateFn r).buf_index ≤ MAX_BUF_SIZE) ∧
    ((read_chars_until drop c r input).router.buf_index ≤ MAX_BUF_SIZE) ∧
    ((loopFn r input).router.buf_index ≤ MAX_BUF_SIZE) ∧
    (∀ i, MAX_BUF_SIZE ≤ i →
      (read_chars_until drop c r input).router.buf i = r.buf i) ∧
    (∀ i, MAX_BUF_SIZE ≤ i → (loopFn r input).router.buf i = r.buf i) := by
  have hrc : ∀ (d : Bool) (cc : Nat),
      ((read_chars_until d cc r input).router.buf_index ≤ MAX_BUF_SIZE) ∧
      (∀ i, MAX_BUF_SIZE ≤ i →
        (read_chars_until d cc r input).router.buf i = r.buf i) := by
    intro d cc
    obtain ⟨h1, h2, h3, h4, h5, h6, h7, h8, h9, h10, h11, h12⟩ :=
      read_chars_aux_spec d cc input r 0
    have hM : MAX_BUF_SIZE = 1048 := rfl
    rw [show read_chars_until d cc r input = read_chars_aux d cc r input 0
      from rfl]
    constructor
    · rcases h7 with h7 | h7 <;> omega
    · intro i hi
      exact h5 i (by omega)
  have hloop : ((loopFn r input).router.buf_index ≤ MAX_BUF_SIZE) ∧
      (∀ i, MAX_BUF_SIZE ≤ i → (loopFn r input).router.buf i = r.buf i) := by
    cases hs : r.state with
    | OFF =>
      rw [loopFn_OFF hs]
      exact ⟨h, fun i _ => rfl⟩
    | ON =>
      rw [loopFn_ON hs]
      dsimp only
      split
      · exact ⟨(hrc true START_FRAME).1, fun i hi => (hrc true START_FRAME).2 i hi⟩
      · exact ⟨(hrc true START_FRAME).1, fun i hi => (hrc true START_FRAME).2 i hi⟩
    | START_FRAME_RECEIVED =>
      rw [loopFn_SFR hs]
      dsimp only
      split
      · exact ⟨(hrc false END_FRAME).1, fun i hi => (hrc false END_FRAME).2 i hi⟩
      · exact ⟨(hrc false END_FRAME).1, fun i hi => (hrc false END_FRAME).2 i hi⟩
    | END_FRAME_RECEIVED =>
      rw [loopFn_EFR hs]
      exact ⟨h, fun i _ => rfl⟩
  refine ⟨h, ?_, (hrc drop c).1, hloop.1, (hrc drop c).2, hloop.2⟩
  unfold updateFn
  split
  · exact Nat.zero_le _
  · exact h

/-- C9 witness: the bound is preserved from a fresh router. -/
theorem C9_fill_within_capacity_witness :
    (((setupFn ⟨fun _ => 0, 0, State.OFF, 1⟩).buf_index ≤ MAX_BUF_SIZE) ∧
    ((updateFn ⟨fun _ => 0, 0, State.OFF, 1⟩).buf_index ≤ MAX_BUF_SIZE) ∧
    ((read_chars_until false 3 ⟨fun _ => 0, 0, State.OFF, 1⟩ []).router.buf_index
      ≤ MAX_BUF_SIZE) ∧
    ((loopFn ⟨fun _ => 0, 0, State.OFF, 1⟩ []).router.buf_index ≤ MAX_BUF_SIZE) ∧
    (∀ i, MAX_BUF_SIZE ≤ i →
      (read_chars_until false 3 ⟨fun _ => 0, 0, State.OFF, 1⟩ []).router.buf i
        = (⟨fun _ => 0, 0, State.OFF, 1⟩ : Router).buf i) ∧
    (∀ i, MAX_BUF_SIZE ≤ i →
      (loopFn ⟨fun _ => 0, 0, State.OFF, 1⟩ []).router.buf i
        = (⟨fun _ => 0, 0, State.OFF, 1⟩ : Router).buf i)) :=
  C9_fill_within_capacity ⟨fun _ => 0, 0, State.OFF, 1⟩ [] false 3 (by decide)

/-- C10: an empty tag or value field (the tab delimiter at the field's
start) makes `get_field` return 0, exactly the result when no delimiter
exists, so the caller rejects the record: a frame whose record has an
empty tag or an empty value publishes no measurement. -/
theorem C10_empty_field_rejected :
    (∀ (post : List Nat) (m : Nat), (get_field (TAB :: post) m).1 = 0) ∧
    (∀ (region : List Nat) (m : Nat), (∀ b ∈ region, b ≠ TAB) →
      (get_field region m).1 = 0) ∧
    (∀ (buf : Nat → Nat) (v : List Nat) (c : Nat),
      blkOK (Blk.record [] v c) →
      agrees buf 0 (blkBytes (Blk.record [] v c)) →
      (blkBytes (Blk.record [] v c)).length < UINT32_MOD →
      (parseFrame buf (blkBytes (Blk.record [] v c)).length 1).published
        = []) ∧
    (∀ (buf : Nat → Nat) (t : List Nat) (c : Nat),
      blkOK (Blk.record t [] c) →
      agrees buf 0 (blkBytes (Blk.record t [] c)) →
      (blkBytes (Blk.record t [] c)).length < UINT32_MOD →
      (parseFrame buf (blkBytes (Blk.record t [] c)).length 1).published
        = []) := by
  refine ⟨?_, ?_, ?_, ?_⟩
  · intro post m
    have hf := @get_field_found [] post m (by intro b hb; simp at hb)
    simp only [List.nil_append] at hf
    rw [hf]
    split <;> rfl
  · intro region m h
    rw [get_field_none h]
  · intro buf v c hok hag hn
    rw [parse_one_block buf _ hok hag hn]
    rw [show blkPublishes (Blk.record [] v c)
        = if c = crcByte [] v ∧ ([] : List Nat) ≠ [] ∧
            ([] : List Nat).length < MAX_TAG_SIZE ∧ v ≠ [] ∧
            v.length < MAX_VAL_SIZE then [(([] : List Nat), v)] else []
      from rfl]
    rw [if_neg (fun hcontra => hcontra.2.1 rfl)]
  · intro buf t c hok hag hn
    rw [parse_one_block buf _ hok hag hn]
    rw [show blkPublishes (Blk.record t [] c)
        = if c = crcByte t [] ∧ t ≠ [] ∧ t.length < MAX_TAG_SIZE ∧
            ([] : List Nat) ≠ [] ∧ ([] : List Nat).length < MAX_VAL_SIZE
          then [(t, ([] : List Nat))] else []
      from rfl]
    rw [if_neg (fun hcontra => hcontra.2.2.2.1 rfl)]

/-- C10 witness: the region starting with a tab yields length 0, and the
one-record frame `0a 09 31 09 23 0d` (empty tag, correct checksum)
publishes nothing. -/
theorem C10_empty_field_rejected_witness :
    (get_field (TAB :: [49, 9, 36]) 16).1 = 0 ∧
    (parseFrame (fun j => [10, 9, 49, 9, 35, 13].getD j 10)
        (blkBytes (Blk.record [] [49] 35)).length 1).published = [] :=
  ⟨C10_empty_field_rejected.1 [49, 9, 36] 16,
   C10_empty_field_rejected.2.2.1 (fun j => [10, 9, 49, 9, 35, 13].getD j 10)
     [49] 35 (by decide) (by decide) (by decide)⟩

end Mk2PVRouter
